import Mathlib

/-!
Verification of the transfer data reconciliation and aggregation pipeline
(`data_processing.py`, `matrix_builders.py`).

Strings are modelled as `List Char`; pandas scalar cells that may be null,
numeric or text are modelled by `PyVal`; floats are modelled exactly by `ℚ`
(the fee arithmetic is decimal scaling only).  DataFrames of transfers and
games are lists of records; an aggregation matrix is a row-label list, a
column-id list and an entry function.
-/

/-- A pandas cell that may be null (NaN/None), numeric, or a string. -/
inductive PyVal where
  | none
  | num (q : ℚ)
  | str (s : List Char)
deriving DecidableEq

/-- ASCII lower-casing of one character, as Python `str.lower` acts on the
characters appearing in this data set (A–Z shift by 32; everything else,
including `€` and digits, is fixed). -/
def lowerChar (c : Char) : Char :=
  if 65 ≤ c.toNat ∧ c.toNat ≤ 90 then Char.ofNat (c.toNat + 32) else c

/-- Python `str.lower` over the whole string. -/
def pyLower (s : List Char) : List Char := s.map lowerChar

/-- Whitespace test used by Python `str.strip` (space, tab, CR, LF — the
whitespace occurring in this data), stated on code points. -/
def isSpaceChar (c : Char) : Bool :=
  decide (c.toNat = 32 ∨ c.toNat = 9 ∨ c.toNat = 13 ∨ c.toNat = 10)

/-- ASCII digit test (`0`–`9`), stated on code points. -/
def isDigitChar (c : Char) : Bool := decide (48 ≤ c.toNat ∧ c.toNat ≤ 57)

/-- Python `str.strip()`: drop whitespace from both ends. -/
def trimList (s : List Char) : List Char :=
  ((s.dropWhile isSpaceChar).reverse.dropWhile isSpaceChar).reverse

/-- `leadsWith pat s` is true when `pat` is an initial segment of `s`. -/
def leadsWith : List Char → List Char → Bool
  | [], _ => true
  | _ :: _, [] => false
  | a :: xs, b :: ys => a == b && leadsWith xs ys

/-- Python `pat in s`: `pat` occurs contiguously somewhere in `s`. -/
def isSubstr (pat s : List Char) : Bool :=
  (List.range (s.length + 1)).any (fun i => leadsWith pat (s.drop i))

/-- One fuelled pass of Python `str.replace(pat, '')`: remove every
(leftmost, non-overlapping) occurrence of `pat`.  Fuel is the length of the
remaining input, so the recursion is structural. -/
def removeAllFuel (pat : List Char) : Nat → List Char → List Char
  | 0, s => s
  | _ + 1, [] => []
  | n + 1, c :: rest =>
    if !pat.isEmpty && leadsWith pat (c :: rest) then
      removeAllFuel pat n ((c :: rest).drop pat.length)
    else
      c :: removeAllFuel pat n rest

/-- Python `s.replace(pat, '')`. -/
def removeAll (pat s : List Char) : List Char := removeAllFuel pat s.length s

/-- Numeric value of a digit string (most significant digit first). -/
def digitsVal (ds : List Char) : ℕ :=
  ds.foldl (fun a c => a * 10 + (c.toNat - 48)) 0

/-- Split an optional leading sign from a numeric string. -/
def splitSignQ (t : List Char) : ℚ × List Char :=
  match t with
  | [] => (1, [])
  | c :: r => if c = '+' then (1, r) else if c = '-' then ((-1 : ℚ), r) else (1, c :: r)

/-- Split an optional leading sign, integer version. -/
def splitSignZ (t : List Char) : ℤ × List Char :=
  match t with
  | [] => (1, [])
  | c :: r => if c = '+' then (1, r) else if c = '-' then ((-1 : ℤ), r) else (1, c :: r)

/-- A digit or an underscore separator, the characters admitted inside a
digit group of a Python numeric literal. -/
def isDigitOrUnderscore (c : Char) : Bool := isDigitChar c || c == '_'

/-- Python allows only single underscores between digits: no two adjacent
underscores anywhere in a digit group. -/
def noDoubleUnderscore : List Char → Bool
  | [] => true
  | [_] => true
  | a :: b :: rest => !(a == '_' && b == '_') && noDoubleUnderscore (b :: rest)

/-- A well-formed Python digit group: non-empty, first and last characters
are digits, underscores single (its characters are digits or underscores
wherever this is used). -/
def validDigitGroup (g : List Char) : Bool :=
  (match g with
    | [] => false
    | c :: _ => isDigitChar c)
  && (match g.getLast? with
    | Option.some c => isDigitChar c
    | Option.none => false)
  && noDoubleUnderscore g

/-- Numeric value of a digit group, underscores ignored. -/
def groupVal (g : List Char) : ℕ := digitsVal (g.filter isDigitChar)

/-- Number of digits of a digit group (the decimal places of a fractional
part). -/
def groupDigits (g : List Char) : ℕ := (g.filter isDigitChar).length

/-- The lower-cased non-finite tokens accepted by Python `float()`:
`nan`, `inf`, `infinity`. -/
def pyFloatSpecialCore (u : List Char) : Bool :=
  u == "nan".data || u == "inf".data || u == "infinity".data

/-- The exponent tail of a Python float literal, after the `e`: an optional
sign and a digit group filling the rest of the string. -/
def parseExpTail (r : List Char) : Option ℤ :=
  let sv := splitSignZ r
  if !sv.2.isEmpty && sv.2.all isDigitOrUnderscore && validDigitGroup sv.2 then
    Option.some (sv.1 * (groupVal sv.2 : ℤ))
  else Option.none

/-- Python `float(s)` on finite values: surrounding whitespace stripped, an
optional sign, then (case-insensitively) digits with an optional fractional
part and an optional decimal exponent, with single underscores allowed
between digits (`"35"`, `"35.5"`, `".5"`, `"5."`, `"1e5"`, `"1_0.2_5E-3"`).
The non-finite successes of `float()` — the tokens `nan`/`inf`/`infinity`
after an optional sign, flagged by `pyFloatSpecial` — have no `ℚ` value and
yield `.none` here, as do the strings where `float()` raises `ValueError`;
theorems about `parse_fee` on strings therefore carry a
`pyFloatSpecial = false` side condition.  Values are exact rationals: the
binary rounding of IEEE doubles and the overflow of extreme exponents to
infinity are outside the model. -/
def pyFloatOpt (s : List Char) : Option ℚ :=
  let su := splitSignQ (trimList s)
  let u := pyLower su.2
  if pyFloatSpecialCore u then Option.none
  else
    let ipRun := u.takeWhile isDigitOrUnderscore
    let rest1 := u.drop ipRun.length
    if !ipRun.isEmpty && !validDigitGroup ipRun then Option.none
    else
      match rest1 with
      | [] =>
        if ipRun.isEmpty then Option.none
        else Option.some (su.1 * (groupVal ipRun : ℚ))
      | '.' :: r2 =>
        let frRun := r2.takeWhile isDigitOrUnderscore
        let rest2 := r2.drop frRun.length
        if !frRun.isEmpty && !validDigitGroup frRun then Option.none
        else if ipRun.isEmpty && frRun.isEmpty then Option.none
        else
          match rest2 with
          | [] =>
            Option.some (su.1 * ((groupVal ipRun : ℚ)
              + (groupVal frRun : ℚ) / ((10 : ℚ) ^ groupDigits frRun)))
          | 'e' :: r3 =>
            match parseExpTail r3 with
            | Option.some e =>
              Option.some (su.1 * ((groupVal ipRun : ℚ)
                + (groupVal frRun : ℚ) / ((10 : ℚ) ^ groupDigits frRun)) * (10 : ℚ) ^ e)
            | Option.none => Option.none
          | _ => Option.none
      | 'e' :: r2 =>
        if ipRun.isEmpty then Option.none
        else
          match parseExpTail r2 with
          | Option.some e =>
            Option.some (su.1 * (groupVal ipRun : ℚ) * (10 : ℚ) ^ e)
          | Option.none => Option.none
      | _ => Option.none

/-- The strings on which Python `float()` succeeds with a non-finite value
(`nan`/`±inf`), which `ℚ` cannot represent: an optional sign followed by one
of the special tokens.  On these, `parse_fee`'s model returns 0 where the
program propagates the non-finite float, so claims about string fees carry
`pyFloatSpecial = false`. -/
def pyFloatSpecial (s : List Char) : Bool :=
  pyFloatSpecialCore (pyLower ((splitSignQ (trimList s)).2))

/-- Python `int(s)`: optional surrounding whitespace, optional sign,
non-empty digit string; `.none` where Python raises `ValueError`. -/
def pyIntOpt (s : List Char) : Option ℤ :=
  let su := splitSignZ (trimList s)
  if !su.2.isEmpty && su.2.all isDigitChar then
    Option.some (su.1 * (digitsVal su.2 : ℤ))
  else Option.none

/-- The `non_cash_markers` list of `parse_fee` (data_processing.py:58-67). -/
def nonCashMarkers : List (List Char) :=
  ["free".data, "loan".data, "end of loan".data, "?-option".data,
   "option to buy".data, "swap".data, "?".data, "-".data]

/-- `any(m in lower for m in non_cash_markers)` (data_processing.py:68). -/
def hasNonCashMarker (lower : List Char) : Bool :=
  nonCashMarkers.any (fun m => isSubstr m lower)

/-- The token-stripping steps of `parse_fee` (data_processing.py:71-73):
remove `€`, `eur`, `fee`, then commas, then strip whitespace. -/
def feeCleaned (lower : List Char) : List Char :=
  trimList (removeAll ",".data (removeAll "fee".data (removeAll "eur".data (removeAll "€".data lower))))

/-- The multiplier step of `parse_fee` (data_processing.py:75-81): a trailing
`m` means ×1,000,000, a trailing `k` means ×1,000; returns the multiplier and
the string with the suffix removed. -/
def feeMultiplier (l : List Char) : ℚ × List Char :=
  if l.getLast? = Option.some 'm' then ((1000000 : ℚ), l.dropLast)
  else if l.getLast? = Option.some 'k' then ((1000 : ℚ), l.dropLast)
  else (1, l)

/-- The string path of `parse_fee` (data_processing.py:53-86): strip, check
non-cash markers on the lower-cased text, strip currency tokens, apply the
`m`/`k` multiplier, parse the remainder as a float (0 on failure). -/
def parseFeeStr (raw : List Char) : ℚ :=
  if (trimList raw).isEmpty then 0
  else if hasNonCashMarker (pyLower (trimList raw)) then 0
  else
    match pyFloatOpt (feeMultiplier (feeCleaned (pyLower (trimList raw)))).2 with
    | Option.some q => q * (feeMultiplier (feeCleaned (pyLower (trimList raw)))).1
    | Option.none => 0

/-- `parse_fee` (data_processing.py:41-86). -/
def parse_fee (value : PyVal) : ℚ :=
  match value with
  | PyVal.none => 0
  | PyVal.num q => q
  | PyVal.str raw => parseFeeStr raw

/-- The name-based fallback of `classify_club_country`
(data_processing.py:97-104). -/
def classifyByName (club_name : PyVal) : String :=
  match club_name with
  | PyVal.str s =>
    if isSubstr "without club".data (pyLower (trimList s))
        || isSubstr "no club".data (pyLower (trimList s)) then "Without Club"
    else if isSubstr "retired".data (pyLower (trimList s)) then "Retired"
    else "Unknown"
  | _ => "Unknown"

/-- `classify_club_country` (data_processing.py:89-104).  The country map is
an association list with the dictionary's key-uniqueness left implicit;
lookup by id takes precedence, then the name heuristics. -/
def classify_club_country (club_id : Option ℤ) (club_name : PyVal)
    (club_country_map : List (ℤ × String)) : String :=
  match club_id with
  | Option.some i =>
    match club_country_map.lookup i with
    | Option.some c => c
    | Option.none => classifyByName club_name
  | Option.none => classifyByName club_name

/-- A raw row of the transfer ledger (the columns used by the pipeline). -/
structure RawTransfer where
  player_id : ℤ
  from_club_id : Option ℤ
  from_club_name : PyVal
  to_club_id : Option ℤ
  to_club_name : PyVal
  transfer_fee : PyVal
  transfer_season : String
deriving DecidableEq

/-- An enriched transfer row (raw columns kept by the pipeline plus
`fee_eur`, `from_country`, `to_country`). -/
structure Transfer where
  player_id : ℤ
  from_club_id : Option ℤ
  to_club_id : Option ℤ
  from_country : String
  to_country : String
  fee_eur : ℚ
  transfer_season : String
deriving DecidableEq

/-- `build_transfer_enriched` (data_processing.py:107-133). -/
def build_transfer_enriched (transfers : List RawTransfer)
    (club_country_map : List (ℤ × String)) : List Transfer :=
  transfers.map (fun r =>
    { player_id := r.player_id
      from_club_id := r.from_club_id
      to_club_id := r.to_club_id
      from_country := classify_club_country r.from_club_id r.from_club_name club_country_map
      to_country := classify_club_country r.to_club_id r.to_club_name club_country_map
      fee_eur := parse_fee r.transfer_fee
      transfer_season := r.transfer_season })

/-- `filter_transfers_by_seasons` (data_processing.py:136-143). -/
def filter_transfers_by_seasons (transfers : List Transfer) (seasons : List String) :
    List Transfer :=
  if seasons.isEmpty then transfers
  else transfers.filter (fun r => seasons.contains r.transfer_season)

/-- Code-point comparison of strings, as Python `sorted` compares `str`. -/
def lexLe : List Char → List Char → Bool
  | [], _ => true
  | _ :: _, [] => false
  | a :: xs, b :: ys =>
    if a.toNat < b.toNat then true
    else if b.toNat < a.toNat then false
    else lexLe xs ys

/-- String comparison wrapper for row labels. -/
def strLe (a b : String) : Bool := lexLe a.data b.data

/-- Insert into a sorted list, before the first element that `x` may
precede (a stable insertion, matching Python's stable `sorted`). -/
def insertLe {α : Type} (le : α → α → Bool) (x : α) : List α → List α
  | [] => [x]
  | y :: ys => if le x y then x :: y :: ys else y :: insertLe le x ys

/-- Stable insertion sort. -/
def sortByLe {α : Type} (le : α → α → Bool) (l : List α) : List α :=
  l.foldr (insertLe le) []

/-- The Python default `extras=('Without Club', 'Retired')` of `ordered_rows`. -/
def defaultExtras : List String := ["Without Club", "Retired"]

/-- `ordered_rows` (data_processing.py:146-153): alphabetical core of the
labels not in `extras`, then the `extras` labels that are present, in the
order given by `extras`. -/
def ordered_rows (index : List String) (extras : List String) : List String :=
  let core := sortByLe strLe (index.filter (fun v => !extras.contains v))
  let tailRows := extras.filter (fun v => index.contains v)
  core ++ tailRows

/-- The first `/`-separated segment of a season label (Python
`season.split('/')[0]`). -/
def takeBeforeSlash (s : List Char) : List Char := s.takeWhile (fun c => c != '/')

/-- The `'YY/YY'`-to-year rule shared by `season_sort_key`,
`calculate_team_statistics` and `calculate_per_season_statistics`: parse the
first segment as an int; ≥ 90 means 1900s, < 90 means 2000s; `.none` where
the Python parse raises. -/
def seasonYearOpt (season : String) : Option ℤ :=
  match pyIntOpt (takeBeforeSlash season.data) with
  | Option.some y => Option.some (if 90 ≤ y then 1900 + y else 2000 + y)
  | Option.none => Option.none

/-- `season_sort_key` inside `sort_seasons_chronologically`
(data_processing.py:162-175); unparsable labels get the sentinel 9999. -/
def season_sort_key (season : String) : ℤ :=
  match seasonYearOpt season with
  | Option.some y => y
  | Option.none => 9999

/-- `sort_seasons_chronologically` (data_processing.py:156-177). -/
def sort_seasons_chronologically (seasons : List String) : List String :=
  sortByLe (fun a b => decide (season_sort_key a ≤ season_sort_key b)) seasons

/-- A row of the games table (the columns used by the pipeline). -/
structure Game where
  home_club_id : ℤ
  away_club_id : ℤ
  home_club_goals : ℤ
  away_club_goals : ℤ
  season : ℤ
deriving DecidableEq

/-- Round half to even at the given rational, as `round(x, 2)` rounds its
scaled value: here the integer rounding step. -/
def roundHalfToEven (q : ℚ) : ℤ :=
  let f : ℤ := ⌊q⌋
  let r : ℚ := q - (f : ℚ)
  if r < 1 / 2 then f
  else if 1 / 2 < r then f + 1
  else if f % 2 = 0 then f else f + 1

/-- Python `round(x, 2)`: two-decimal round-half-to-even. -/
def round2 (q : ℚ) : ℚ := ((roundHalfToEven (q * 100) : ℚ)) / 100

/-- One output record of `calculate_team_statistics`. -/
structure TeamStats where
  club_id : ℤ
  games_played : ℕ
  games_won : ℕ
  win_pct : ℚ
  money_spent : ℚ
  money_earned : ℚ
deriving DecidableEq

/-- One output record of `calculate_per_season_statistics`. -/
structure SeasonStats where
  season : String
  games_played : ℕ
  games_won : ℕ
  win_pct : ℚ
  money_spent : ℚ
  money_earned : ℚ
deriving DecidableEq

/-- The games filter of `calculate_team_statistics`
(data_processing.py:201-221): seasons convert to years (failures skipped);
an empty year list, like no selection, leaves the games unfiltered. -/
def teamGamesFiltered (games : List Game) (selected_seasons : Option (List String)) :
    List Game :=
  let games_years : List ℤ :=
    match selected_seasons with
    | Option.some ss => if ss.isEmpty then [] else ss.filterMap seasonYearOpt
    | Option.none => []
  if games_years.isEmpty then games
  else games.filter (fun g => games_years.contains g.season)

/-- The transfers filter of `calculate_team_statistics`
(data_processing.py:223-226). -/
def teamTransfersFiltered (tf : List Transfer) (selected_seasons : Option (List String)) :
    List Transfer :=
  match selected_seasons with
  | Option.some ss => if ss.isEmpty then tf else filter_transfers_by_seasons tf ss
  | Option.none => tf

/-- Sum of `fee_eur` over the transfers bought by `cid`
(`to_club_id == club_id`; a null id never matches). -/
def feeSumTo (cid : ℤ) (ts : List Transfer) : ℚ :=
  ((ts.filter (fun r => r.to_club_id == Option.some cid)).map (fun r => r.fee_eur)).sum

/-- Sum of `fee_eur` over the transfers sold by `cid`
(`from_club_id == club_id`). -/
def feeSumFrom (cid : ℤ) (ts : List Transfer) : ℚ :=
  ((ts.filter (fun r => r.from_club_id == Option.some cid)).map (fun r => r.fee_eur)).sum

/-- Strict wins of a club over a game list: home games won plus away games
won, goals strictly greater on the club's side (data_processing.py:234-236). -/
def strictWinCount (cid : ℤ) (gs : List Game) : ℕ :=
  ((gs.filter (fun g => g.home_club_id == cid)).filter
      (fun g => decide (g.away_club_goals < g.home_club_goals))).length
  + ((gs.filter (fun g => g.away_club_id == cid)).filter
      (fun g => decide (g.home_club_goals < g.away_club_goals))).length

/-- Games played by a club: appearances as home plus as away
(data_processing.py:239). -/
def gamesPlayedCount (cid : ℤ) (gs : List Game) : ℕ :=
  (gs.filter (fun g => g.home_club_id == cid)).length
  + (gs.filter (fun g => g.away_club_id == cid)).length

/-- The per-club record built in the loop body of `calculate_team_statistics`
(data_processing.py:228-261). -/
def teamRecord (gf : List Game) (tfF : List Transfer) (cid : ℤ) : TeamStats :=
  let total_wins := strictWinCount cid gf
  let total_games := gamesPlayedCount cid gf
  let win_pct : ℚ := if 0 < total_games then (total_wins : ℚ) / (total_games : ℚ) * 100 else 0
  { club_id := cid
    games_played := total_games
    games_won := total_wins
    win_pct := round2 win_pct
    money_spent := feeSumTo cid tfF
    money_earned := feeSumFrom cid tfF }

/-- `calculate_team_statistics` (data_processing.py:180-263). -/
def calculate_team_statistics (club_ids : List ℤ) (games : List Game)
    (transfers_enriched : List Transfer) (selected_seasons : Option (List String)) :
    List TeamStats :=
  club_ids.map
    (teamRecord (teamGamesFiltered games selected_seasons)
      (teamTransfersFiltered transfers_enriched selected_seasons))

/-- The per-season record built in the loop body of
`calculate_per_season_statistics` (data_processing.py:282-330); `.none` when
the season label fails to parse (the loop's `continue`). -/
def seasonRecordOpt (club_id : ℤ) (games : List Game) (tf : List Transfer)
    (season : String) : Option SeasonStats :=
  match seasonYearOpt season with
  | Option.none => Option.none
  | Option.some gy =>
    let season_games := games.filter (fun g => g.season == gy)
    let total_wins := strictWinCount club_id season_games
    let total_games := gamesPlayedCount club_id season_games
    let win_pct : ℚ := if 0 < total_games then (total_wins : ℚ) / (total_games : ℚ) * 100 else 0
    let season_transfers := tf.filter (fun r => r.transfer_season == season)
    Option.some
      { season := season
        games_played := total_games
        games_won := total_wins
        win_pct := round2 win_pct
        money_spent := feeSumTo club_id season_transfers
        money_earned := feeSumFrom club_id season_transfers }

/-- `calculate_per_season_statistics` (data_processing.py:266-332). -/
def calculate_per_season_statistics (club_id : ℤ) (games : List Game)
    (tf : List Transfer) (seasons : List String) : List SeasonStats :=
  seasons.filterMap (seasonRecordOpt club_id games tf)

/-- pandas `Series.isin` on a possibly-null id column. -/
def optMem (i : Option ℤ) (ids : List ℤ) : Bool :=
  match i with
  | Option.some v => ids.contains v
  | Option.none => false

/-- An aggregation matrix: row labels (country buckets), column ids
(club ids), and the cell values. -/
structure Mat where
  rows : List String
  cols : List ℤ
  entry : String → ℤ → ℚ

/-- Sum of a column over the matrix rows. -/
def colSum (m : Mat) (c : ℤ) : ℚ := (m.rows.map (fun r => m.entry r c)).sum

/-- The shared groupby–unstack–reindex tail of the four matrix builders
(matrix_builders.py:20-30 etc.): empty input gives 0 rows with the full
column list; otherwise rows are the distinct `rowOf` values passed through
`ordered_rows`, columns are reindexed to exactly `topIds`, and a cell is the
sum of `val` over the matching transfers (0 when absent). -/
def aggMat (t : List Transfer) (topIds : List ℤ) (rowOf : Transfer → String)
    (colOf : Transfer → Option ℤ) (val : Transfer → ℚ) (extras : List String) : Mat :=
  if t.isEmpty then { rows := [], cols := topIds, entry := fun _ _ => 0 }
  else
    { rows := ordered_rows ((t.map rowOf).dedup) extras
      cols := topIds
      entry := fun country cid =>
        ((t.filter (fun r => rowOf r == country && colOf r == Option.some cid)).map val).sum }

/-- The row filters of `money_in_matrix` (matrix_builders.py:14-18):
buying club among `topIds`, positive fee, origin bucket not
`Without Club`/`Retired`. -/
def moneyInQualifying (topIds : List ℤ) (tf : List Transfer) : List Transfer :=
  ((tf.filter (fun r => optMem r.to_club_id topIds)).filter
      (fun r => decide (0 < r.fee_eur))).filter
    (fun r => !defaultExtras.contains r.from_country)

/-- `money_in_matrix` (matrix_builders.py:8-30). -/
def money_in_matrix (topIds : List ℤ) (tf : List Transfer) : Mat :=
  aggMat (moneyInQualifying topIds tf) topIds (fun r => r.from_country)
    (fun r => r.to_club_id) (fun r => r.fee_eur) defaultExtras

/-- The row filters of `money_out_matrix` (matrix_builders.py:38-42). -/
def moneyOutQualifying (topIds : List ℤ) (tf : List Transfer) : List Transfer :=
  ((tf.filter (fun r => optMem r.from_club_id topIds)).filter
      (fun r => decide (0 < r.fee_eur))).filter
    (fun r => !defaultExtras.contains r.to_country)

/-- `money_out_matrix` (matrix_builders.py:32-54). -/
def money_out_matrix (topIds : List ℤ) (tf : List Transfer) : Mat :=
  aggMat (moneyOutQualifying topIds tf) topIds (fun r => r.to_country)
    (fun r => r.from_club_id) (fun r => r.fee_eur) defaultExtras

/-- The row filter of `players_in_matrix` (matrix_builders.py:62-64). -/
def playersInQualifying (topIds : List ℤ) (tf : List Transfer) : List Transfer :=
  tf.filter (fun r => optMem r.to_club_id topIds)

/-- `players_in_matrix` (matrix_builders.py:56-75): counts records, so each
transfer contributes 1. -/
def players_in_matrix (topIds : List ℤ) (tf : List Transfer) : Mat :=
  aggMat (playersInQualifying topIds tf) topIds (fun r => r.from_country)
    (fun r => r.to_club_id) (fun _ => 1) ["Without Club"]

/-- The row filter of `players_out_matrix` (matrix_builders.py:85-87). -/
def playersOutQualifying (topIds : List ℤ) (tf : List Transfer) : List Transfer :=
  tf.filter (fun r => optMem r.from_club_id topIds)

/-- `players_out_matrix` (matrix_builders.py:77-100). -/
def players_out_matrix (topIds : List ℤ) (tf : List Transfer) : Mat :=
  aggMat (playersOutQualifying topIds tf) topIds (fun r => r.to_country)
    (fun r => r.from_club_id) (fun _ => 1) defaultExtras

/-- `column_percentage_matrix` (matrix_builders.py:102-120): an empty matrix
is returned unchanged; otherwise each column is scaled to percentages of its
sum, and a column whose sum is not positive becomes all 0. -/
def column_percentage_matrix (m : Mat) : Mat :=
  if m.rows.isEmpty || m.cols.isEmpty then m
  else
    { rows := m.rows
      cols := m.cols
      entry := fun r c =>
        let total := colSum m c
        if 0 < total then m.entry r c / total * 100 else 0 }

/-- A raw `transfer_fee` cell whose parse stays non-negative and finite:
null, a non-negative numeric, or a string whose cleaned remainder is not a
non-finite `float()` token. -/
def feeInputOk (v : PyVal) : Bool :=
  match v with
  | PyVal.num q => decide (0 ≤ q)
  | PyVal.str s => !pyFloatSpecial (feeMultiplier (feeCleaned (pyLower (trimList s)))).2
  | PyVal.none => true

/-- A one-row, one-column matrix used to instantiate the percentage
normalisation at a concrete input. -/
def pctExample : Mat := { rows := ["Spain"], cols := [1], entry := fun _ _ => 2 }

/-- A sample enriched transfer: club 10 sells to club 1 for 5, origin bucket
`Unknown`. -/
def tEx1 : Transfer :=
  { player_id := 1, from_club_id := Option.some 10, to_club_id := Option.some 1,
    from_country := "Unknown", to_country := "Spain", fee_eur := 5,
    transfer_season := "20/21" }

/-- A sample zero-fee enriched transfer into club 1. -/
def tEx0 : Transfer :=
  { player_id := 2, from_club_id := Option.some 11, to_club_id := Option.some 1,
    from_country := "France", to_country := "Spain", fee_eur := 0,
    transfer_season := "20/21" }

/-- A sample game: club 1 beats club 2 at home, season 2020. -/
def gEx1 : Game :=
  { home_club_id := 1, away_club_id := 2, home_club_goals := 3,
    away_club_goals := 1, season := 2020 }

/-! ### Character and substring lemmas -/

/-- `lowerChar` fixes every character outside `A`–`Z`. -/
theorem lowerChar_eq_self {c : Char} (h : c.toNat < 65 ∨ 90 < c.toNat) : lowerChar c = c := by
  unfold lowerChar
  rw [if_neg]
  omega

/-- `leadsWith` implies membership of every pattern character. -/
theorem mem_of_leadsWith : ∀ {pat t : List Char}, leadsWith pat t = true →
    ∀ c ∈ pat, c ∈ t := by
  intro pat
  induction pat with
  | nil => intro t _ c hc; exact absurd hc (List.not_mem_nil c)
  | cons a xs ih =>
    intro t h c hc
    cases t with
    | nil => exact absurd h (by simp [leadsWith])
    | cons b ys =>
      rw [leadsWith, Bool.and_eq_true, beq_iff_eq] at h
      rcases List.mem_cons.1 hc with rfl | hc
      · exact h.1 ▸ List.mem_cons_self b ys
      · exact List.mem_cons_of_mem b (ih h.2 c hc)

/-- A substring's characters are characters of the enclosing string. -/
theorem mem_of_isSubstr {pat s : List Char} (h : isSubstr pat s = true) :
    ∀ c ∈ pat, c ∈ s := by
  rw [isSubstr, List.any_eq_true] at h
  obtain ⟨i, _, hi⟩ := h
  intro c hc
  exact List.mem_of_mem_drop (mem_of_leadsWith hi c hc)

/-- A single character occurring in a string is a substring of it. -/
theorem isSubstr_of_mem {c : Char} {s : List Char} (h : c ∈ s) : isSubstr [c] s = true := by
  rw [isSubstr, List.any_eq_true]
  induction s with
  | nil => exact absurd h (List.not_mem_nil c)
  | cons a rest ih =>
    rcases List.mem_cons.1 h with rfl | h
    · exact ⟨0, by simp, by simp [leadsWith]⟩
    · obtain ⟨i, hir, hi⟩ := ih h
      refine ⟨i + 1, ?_, ?_⟩
      · simp only [List.mem_range] at hir ⊢
        simpa using Nat.succ_lt_succ (Nat.lt_of_lt_of_le hir (by simp))
      · simpa [List.drop_succ_cons] using hi

/-- Characters of the trimmed string are characters of the string. -/
theorem mem_trimList {s : List Char} {c : Char} (h : c ∈ trimList s) : c ∈ s := by
  unfold trimList at h
  rw [List.mem_reverse] at h
  have h1 : c ∈ (s.dropWhile isSpaceChar).reverse :=
    (List.dropWhile_sublist _).subset h
  rw [List.mem_reverse] at h1
  exact (List.dropWhile_sublist _).subset h1

/-- Characters surviving `removeAllFuel` are characters of the input. -/
theorem mem_removeAllFuel {pat : List Char} :
    ∀ (n : Nat) (s : List Char) {c : Char}, c ∈ removeAllFuel pat n s → c ∈ s := by
  intro n
  induction n with
  | zero => intro s c h; simp only [removeAllFuel] at h; exact h
  | succ n ih =>
    intro s c h
    cases s with
    | nil => simp only [removeAllFuel] at h; exact h
    | cons a rest =>
      by_cases hp : (!pat.isEmpty && leadsWith pat (a :: rest)) = true
      · rw [removeAllFuel, if_pos hp] at h
        exact List.mem_of_mem_drop (ih _ h)
      · rw [removeAllFuel, if_neg hp] at h
        rcases List.mem_cons.1 h with rfl | h
        · exact List.mem_cons_self _ _
        · exact List.mem_cons_of_mem a (ih _ h)

/-- Characters surviving `removeAll` are characters of the input. -/
theorem mem_removeAll {pat s : List Char} {c : Char} (h : c ∈ removeAll pat s) : c ∈ s :=
  mem_removeAllFuel s.length s h

/-- Characters of the cleaned fee string are characters of the lower-cased
string. -/
theorem mem_feeCleaned {lower : List Char} {c : Char} (h : c ∈ feeCleaned lower) : c ∈ lower :=
  mem_removeAll (mem_removeAll (mem_removeAll (mem_removeAll (mem_trimList h))))

/-- `removeAllFuel` is the identity when the pattern head never occurs. -/
theorem removeAllFuel_of_head_not_mem {p0 : Char} {pr : List Char} :
    ∀ (n : Nat) (s : List Char), p0 ∉ s → removeAllFuel (p0 :: pr) n s = s := by
  intro n
  induction n with
  | zero => intro s _; rfl
  | succ n ih =>
    intro s hs
    cases s with
    | nil => rfl
    | cons a rest =>
      have ha : ¬(p0 == a) = true := by
        intro h
        exact hs ((beq_iff_eq.1 h) ▸ List.mem_cons_self a rest)
      have hl : leadsWith (p0 :: pr) (a :: rest) = false := by
        rw [leadsWith, Bool.and_eq_false_iff]
        exact Or.inl (Bool.not_eq_true _ ▸ Bool.eq_false_iff.2 fun h => ha h)
      rw [removeAllFuel, if_neg (by simp [hl])]
      rw [ih rest fun hm => hs (List.mem_cons_of_mem a hm)]

/-- `removeAll` is the identity when the pattern head never occurs. -/
theorem removeAll_of_head_not_mem {p0 : Char} {pr : List Char} {s : List Char}
    (h : p0 ∉ s) : removeAll (p0 :: pr) s = s :=
  removeAllFuel_of_head_not_mem s.length s h

/-- `dropWhile` is the identity when no character satisfies the predicate. -/
theorem dropWhile_eq_self_of_false {p : Char → Bool} {l : List Char}
    (h : ∀ c ∈ l, p c = false) : l.dropWhile p = l := by
  cases l with
  | nil => rfl
  | cons a rest =>
    rw [List.dropWhile_cons, if_neg]
    simp [h a (List.mem_cons_self a rest)]

/-- `trimList` is the identity on whitespace-free strings. -/
theorem trimList_eq_self {l : List Char} (h : ∀ c ∈ l, isSpaceChar c = false) :
    trimList l = l := by
  unfold trimList
  rw [dropWhile_eq_self_of_false h,
    dropWhile_eq_self_of_false (fun c hc => h c (List.mem_reverse.1 hc)),
    List.reverse_reverse]

/-- `takeWhile` keeps everything when all characters satisfy the predicate. -/
theorem takeWhile_eq_self_of_true {p : Char → Bool} : ∀ {l : List Char},
    (∀ c ∈ l, p c = true) → l.takeWhile p = l := by
  intro l
  induction l with
  | nil => intro _; rfl
  | cons a rest ih =>
    intro h
    rw [List.takeWhile_cons, if_pos (h a (List.mem_cons_self a rest))]
    rw [ih fun c hc => h c (List.mem_cons_of_mem a hc)]

/-! ### Sorting lemmas -/

/-- Membership through stable insertion. -/
theorem mem_insertLe {α : Type} (le : α → α → Bool) (x : α) (l : List α) (a : α) :
    a ∈ insertLe le x l ↔ a = x ∨ a ∈ l := by
  induction l with
  | nil => simp [insertLe]
  | cons y ys ih =>
    by_cases h : le x y = true
    · rw [insertLe, if_pos h]
      simp only [List.mem_cons]
    · rw [insertLe, if_neg h]
      simp only [List.mem_cons, ih]
      tauto

/-- Insertion produces a permutation of consing. -/
theorem insertLe_perm {α : Type} (le : α → α → Bool) (x : α) (l : List α) :
    List.Perm (insertLe le x l) (x :: l) := by
  induction l with
  | nil => rfl
  | cons y ys ih =>
    by_cases h : le x y = true
    · rw [insertLe, if_pos h]
    · rw [insertLe, if_neg h]
      exact (ih.cons y).trans (List.Perm.swap x y ys)

/-- Insertion sort permutes its input. -/
theorem sortByLe_perm {α : Type} (le : α → α → Bool) (l : List α) :
    List.Perm (sortByLe le l) l := by
  induction l with
  | nil => rfl
  | cons a l ih => exact (insertLe_perm le a (sortByLe le l)).trans (ih.cons a)

/-- Membership through insertion sort. -/
theorem mem_sortByLe {α : Type} (le : α → α → Bool) (l : List α) (a : α) :
    a ∈ sortByLe le l ↔ a ∈ l :=
  (sortByLe_perm le l).mem_iff

/-- Inserting into a pairwise-ordered list keeps it pairwise ordered, for a
total transitive comparison. -/
theorem pairwise_insertLe {α : Type} (le : α → α → Bool)
    (htrans : ∀ a b c, le a b = true → le b c = true → le a c = true)
    (htot : ∀ a b, le a b = true ∨ le b a = true)
    (x : α) (l : List α) (h : l.Pairwise (fun a b => le a b = true)) :
    (insertLe le x l).Pairwise (fun a b => le a b = true) := by
  induction l with
  | nil => simp [insertLe]
  | cons y ys ih =>
    rcases List.pairwise_cons.1 h with ⟨hy, hys⟩
    by_cases hxy : le x y = true
    · rw [insertLe, if_pos hxy]
      refine List.pairwise_cons.2 ⟨?_, h⟩
      intro b hb
      rcases List.mem_cons.1 hb with rfl | hb
      · exact hxy
      · exact htrans x y b hxy (hy b hb)
    · rw [insertLe, if_neg hxy]
      refine List.pairwise_cons.2 ⟨?_, ih hys⟩
      intro b hb
      rcases (mem_insertLe le x ys b).1 hb with rfl | hb
      · rcases htot b y with h1 | h1
        · exact absurd h1 hxy
        · exact h1
      · exact hy b hb

/-- Insertion sort orders its output pairwise, for a total transitive
comparison. -/
theorem pairwise_sortByLe {α : Type} (le : α → α → Bool)
    (htrans : ∀ a b c, le a b = true → le b c = true → le a c = true)
    (htot : ∀ a b, le a b = true ∨ le b a = true) (l : List α) :
    (sortByLe le l).Pairwise (fun a b => le a b = true) := by
  induction l with
  | nil => exact List.Pairwise.nil
  | cons a l ih => exact pairwise_insertLe le htrans htot a (sortByLe le l) ih

/-- `ordered_rows` neither drops nor invents labels. -/
theorem mem_ordered_rows (l extras : List String) (x : String) :
    x ∈ ordered_rows l extras ↔ x ∈ l := by
  unfold ordered_rows
  rw [List.mem_append, mem_sortByLe, List.mem_filter, List.mem_filter]
  constructor
  · rintro (⟨hx, _⟩ | ⟨_, hx⟩)
    · exact hx
    · rw [List.contains_eq_any_beq, List.any_eq_true] at hx
      obtain ⟨y, hy, hxy⟩ := hx
      exact (beq_iff_eq.1 hxy) ▸ hy
  · intro hx
    by_cases he : x ∈ extras
    · exact Or.inr ⟨he, by
        rw [List.contains_eq_any_beq, List.any_eq_true]
        exact ⟨x, hx, beq_self_eq_true x⟩⟩
    · refine Or.inl ⟨hx, ?_⟩
      rw [Bool.not_eq_true', Bool.eq_false_iff]
      intro hc
      rw [List.contains_eq_any_beq, List.any_eq_true] at hc
      obtain ⟨y, hy, hxy⟩ := hc
      exact he ((beq_iff_eq.1 hxy) ▸ hy)

/-! ### Sum and filter lemmas -/

/-- A sum of ones counts the list. -/
theorem sum_map_one {α : Type} (l : List α) : (l.map (fun _ => (1 : ℚ))).sum = (l.length : ℚ) := by
  induction l with
  | nil => simp
  | cons a l ih =>
    rw [List.map_cons, List.sum_cons, ih, List.length_cons]
    push_cast
    ring

/-- Column scaling distributes over the row sum. -/
theorem sum_map_div_mul (l : List String) (f : String → ℚ) (T : ℚ) :
    (l.map (fun r => f r / T * 100)).sum = (l.map f).sum / T * 100 := by
  induction l with
  | nil => simp
  | cons a l ih =>
    rw [List.map_cons, List.sum_cons, ih, List.map_cons, List.sum_cons]
    ring

/-- An outer filter already implied by the inner one is absorbed. -/
theorem filter_absorb {α : Type} (l : List α) (p q : α → Bool)
    (h : ∀ a, q a = true → p a = true) : (l.filter p).filter q = l.filter q := by
  rw [List.filter_filter]
  refine List.filter_congr ?_
  intro a _
  cases hq : q a with
  | false => simp
  | true => simp [h a hq]

/-! ### Rounding and fee-parser lemmas -/

unseal Rat.mul Rat.add Rat.inv Rat.sub in
/-- Rounding zero gives zero. -/
theorem round2_zero : round2 0 = 0 := by decide

/-- The fee multiplier is positive. -/
theorem feeMultiplier_fst_pos (l : List Char) : 0 < (feeMultiplier l).1 := by
  unfold feeMultiplier
  by_cases h1 : l.getLast? = Option.some 'm'
  · rw [if_pos h1]; norm_num
  · rw [if_neg h1]
    by_cases h2 : l.getLast? = Option.some 'k'
    · rw [if_pos h2]; norm_num
    · rw [if_neg h2]; norm_num

/-- The multiplier step only ever removes the final character. -/
theorem mem_feeMultiplier_snd {l : List Char} {c : Char}
    (h : c ∈ (feeMultiplier l).2) : c ∈ l := by
  unfold feeMultiplier at h
  by_cases h1 : l.getLast? = Option.some 'm'
  · rw [if_pos h1] at h; exact (List.dropLast_sublist l).subset h
  · rw [if_neg h1] at h
    by_cases h2 : l.getLast? = Option.some 'k'
    · rw [if_pos h2] at h; exact (List.dropLast_sublist l).subset h
    · rw [if_neg h2] at h; exact h

/-- Without a leading minus the split sign is `1`. -/
theorem splitSignQ_fst_of_not_dash {t : List Char} (h : '-' ∉ t) : (splitSignQ t).1 = 1 := by
  cases t with
  | nil => rfl
  | cons c r =>
    have hc : c ≠ '-' := fun e => h (e ▸ List.mem_cons_self c r)
    show (if c = '+' then ((1 : ℚ), r) else if c = '-' then ((-1 : ℚ), r) else (1, c :: r)).1 = 1
    by_cases hp : c = '+'
    · rw [if_pos hp]
    · rw [if_neg hp, if_neg hc]

/-- A finite parse of a minus-free string is non-negative. -/
theorem pyFloatOpt_nonneg {s : List Char} (hdash : '-' ∉ s) {q : ℚ}
    (hq : pyFloatOpt s = Option.some q) : 0 ≤ q := by
  have hs : '-' ∉ trimList s := fun hm => hdash (mem_trimList hm)
  have h1 : (splitSignQ (trimList s)).1 = 1 := splitSignQ_fst_of_not_dash hs
  simp only [pyFloatOpt, h1, one_mul] at hq
  split at hq
  · exact absurd hq (by simp)
  · split at hq
    · exact absurd hq (by simp)
    · split at hq
      · split at hq
        · exact absurd hq (by simp)
        · rw [Option.some_inj] at hq
          rw [← hq]
          exact Nat.cast_nonneg _
      · split at hq
        · exact absurd hq (by simp)
        · split at hq
          · exact absurd hq (by simp)
          · split at hq
            · rw [Option.some_inj] at hq
              rw [← hq]
              refine add_nonneg (Nat.cast_nonneg _) (div_nonneg (Nat.cast_nonneg _) ?_)
              positivity
            · split at hq
              · rw [Option.some_inj] at hq
                rw [← hq]
                refine mul_nonneg (add_nonneg (Nat.cast_nonneg _)
                  (div_nonneg (Nat.cast_nonneg _) (by positivity))) ?_
                exact le_of_lt (zpow_pos (by norm_num) _)
              · exact absurd hq (by simp)
            · exact absurd hq (by simp)
      · split at hq
        · exact absurd hq (by simp)
        · split at hq
          · rw [Option.some_inj] at hq
            rw [← hq]
            exact mul_nonneg (Nat.cast_nonneg _) (le_of_lt (zpow_pos (by norm_num) _))
          · exact absurd hq (by simp)
      · exact absurd hq (by simp)

/-- A character failing a property shared by all members is not a member. -/
theorem not_mem_of_chars {s : List Char} {P : Char → Prop}
    (h : ∀ c ∈ s, P c) {x : Char} (hx : ¬P x) : x ∉ s := fun hm => hx (h x hm)

/-- The marker check returns 0 on both branches reached with a marker. -/
theorem parseFeeStr_of_marker {raw : List Char}
    (h : hasNonCashMarker (pyLower (trimList raw)) = true) : parseFeeStr raw = 0 := by
  unfold parseFeeStr
  by_cases he : (trimList raw).isEmpty = true
  · rw [if_pos he]
  · rw [if_neg he, if_pos h]

/-- The empty-after-strip early return of `parse_fee`. -/
theorem parseFeeStr_of_empty {raw : List Char} (h : (trimList raw).isEmpty = true) :
    parseFeeStr raw = 0 := by
  unfold parseFeeStr
  rw [if_pos h]

/-- Without a marker, `parse_fee` is the cleaned-parse-multiply pipeline. -/
theorem parseFeeStr_no_marker {raw : List Char} (hne : (trimList raw).isEmpty = false)
    (hm : hasNonCashMarker (pyLower (trimList raw)) = false) :
    parseFeeStr raw =
      match pyFloatOpt (feeMultiplier (feeCleaned (pyLower (trimList raw)))).2 with
      | Option.some q => q * (feeMultiplier (feeCleaned (pyLower (trimList raw)))).1
      | Option.none => 0 := by
  unfold parseFeeStr
  rw [if_neg (by simp [hne]), if_neg (by simp [hm])]

/-- If no marker matched, the string holds no minus sign. -/
theorem not_dash_of_no_marker {lower : List Char} (h : hasNonCashMarker lower = false) :
    '-' ∉ lower := by
  intro hm
  have hsub : isSubstr ['-'] lower = true := isSubstr_of_mem hm
  rw [hasNonCashMarker, List.any_eq_false] at h
  exact h "-".data (by decide) hsub

/-- The fee value parsed from any string is non-negative. -/
theorem parseFeeStr_nonneg (raw : List Char) : 0 ≤ parseFeeStr raw := by
  by_cases he : (trimList raw).isEmpty = true
  · rw [parseFeeStr_of_empty he]
  · by_cases hm : hasNonCashMarker (pyLower (trimList raw)) = true
    · rw [parseFeeStr_of_marker hm]
    · have hm' : hasNonCashMarker (pyLower (trimList raw)) = false := by
        simpa using hm
      rw [parseFeeStr_no_marker (by simpa using he) hm']
      rcases hP : pyFloatOpt (feeMultiplier (feeCleaned (pyLower (trimList raw)))).2
        with _ | q
      · exact le_refl 0
      · have hdash : '-' ∉ (feeMultiplier (feeCleaned (pyLower (trimList raw)))).2 := by
          intro hc
          exact not_dash_of_no_marker hm' (mem_feeCleaned (mem_feeMultiplier_snd hc))
        exact mul_nonneg (pyFloatOpt_nonneg hdash hP) (le_of_lt (feeMultiplier_fst_pos _))

/-- `parse_fee` is non-negative on null and string inputs. -/
theorem parse_fee_str_nonneg (s : List Char) : 0 ≤ parse_fee (PyVal.str s) :=
  parseFeeStr_nonneg s

/-! ### Digit-string evaluation of the fee parser -/

/-- Digit / `m` / `k` characters are not whitespace. -/
theorem no_space_of_digits_mk {s : List Char}
    (h : ∀ c ∈ s, isDigitChar c = true ∨ c = 'm' ∨ c = 'k') :
    ∀ c ∈ s, isSpaceChar c = false := by
  intro c hc
  rcases h c hc with hd | rfl | rfl
  · rw [isDigitChar, decide_eq_true_iff] at hd
    rw [isSpaceChar, decide_eq_false_iff_not]
    omega
  · decide
  · decide

/-- Lower-casing fixes digit / `m` / `k` strings. -/
theorem pyLower_of_digits_mk {s : List Char}
    (h : ∀ c ∈ s, isDigitChar c = true ∨ c = 'm' ∨ c = 'k') : pyLower s = s := by
  unfold pyLower
  induction s with
  | nil => rfl
  | cons a rest ih =>
    rw [List.map_cons]
    have ha : lowerChar a = a := by
      rcases h a (List.mem_cons_self a rest) with hd | rfl | rfl
      · rw [isDigitChar, decide_eq_true_iff] at hd
        exact lowerChar_eq_self (Or.inl (by omega))
      · decide
      · decide
    rw [ha, ih fun c hc => h c (List.mem_cons_of_mem a hc)]

/-- No non-cash marker occurs in a digit / `m` / `k` string. -/
theorem hasNonCashMarker_false_of_digits_mk {s : List Char}
    (h : ∀ c ∈ s, isDigitChar c = true ∨ c = 'm' ∨ c = 'k') :
    hasNonCashMarker s = false := by
  rw [hasNonCashMarker, List.any_eq_false]
  intro m hm hsub
  have key : ∀ cw ∈ m, isDigitChar cw = true ∨ cw = 'm' ∨ cw = 'k' :=
    fun cw hcw => h cw (mem_of_isSubstr hsub cw hcw)
  have hm8 : m = "free".data ∨ m = "loan".data ∨ m = "end of loan".data ∨
      m = "?-option".data ∨ m = "option to buy".data ∨ m = "swap".data ∨
      m = "?".data ∨ m = "-".data := by
    simpa [nonCashMarkers] using hm
  rcases hm8 with rfl | rfl | rfl | rfl | rfl | rfl | rfl | rfl
  · exact absurd (key 'f' (by decide)) (by decide)
  · exact absurd (key 'l' (by decide)) (by decide)
  · exact absurd (key 'd' (by decide)) (by decide)
  · exact absurd (key '?' (by decide)) (by decide)
  · exact absurd (key 'o' (by decide)) (by decide)
  · exact absurd (key 's' (by decide)) (by decide)
  · exact absurd (key '?' (by decide)) (by decide)
  · exact absurd (key '-' (by decide)) (by decide)

/-- Token stripping fixes digit / `m` / `k` strings. -/
theorem feeCleaned_of_digits_mk {s : List Char}
    (h : ∀ c ∈ s, isDigitChar c = true ∨ c = 'm' ∨ c = 'k') : feeCleaned s = s := by
  have h1 : '€' ∉ s := not_mem_of_chars h (by decide)
  have h2 : 'e' ∉ s := not_mem_of_chars h (by decide)
  have h3 : 'f' ∉ s := not_mem_of_chars h (by decide)
  have h4 : ',' ∉ s := not_mem_of_chars h (by decide)
  unfold feeCleaned
  rw [show removeAll "€".data s = s from removeAll_of_head_not_mem h1]
  rw [show removeAll "eur".data s = s from removeAll_of_head_not_mem h2]
  rw [show removeAll "fee".data s = s from removeAll_of_head_not_mem h3]
  rw [show removeAll ",".data s = s from removeAll_of_head_not_mem h4]
  exact trimList_eq_self (no_space_of_digits_mk h)

/-- A string without underscores has no double underscore. -/
theorem noDoubleUnderscore_of_no_underscore {g : List Char}
    (h : ∀ c ∈ g, (c == '_') = false) : noDoubleUnderscore g = true := by
  induction g with
  | nil => rfl
  | cons a rest ih =>
    cases rest with
    | nil => rfl
    | cons b r2 =>
      rw [noDoubleUnderscore, h a (List.mem_cons_self a _), Bool.false_and, Bool.not_false,
        Bool.true_and]
      exact ih fun c hc => h c (List.mem_cons_of_mem a hc)

/-- A non-empty all-digit string is a valid digit group. -/
theorem validDigitGroup_of_digits {g : List Char} (hne : g ≠ [])
    (hall : ∀ c ∈ g, isDigitChar c = true) : validDigitGroup g = true := by
  rcases g with _ | ⟨c, rest⟩
  · exact absurd rfl hne
  · have h1 : isDigitChar c = true := hall c (List.mem_cons_self c rest)
    have h2 : ∃ d, (c :: rest).getLast? = Option.some d := by
      rcases hl : (c :: rest).getLast? with _ | d
      · rw [List.getLast?_eq_none_iff] at hl
        exact absurd hl (by simp)
      · exact ⟨d, rfl⟩
    obtain ⟨d, hd⟩ := h2
    have h3 : isDigitChar d = true := hall d (List.mem_of_getLast?_eq_some hd)
    have h4 : noDoubleUnderscore (c :: rest) = true :=
      noDoubleUnderscore_of_no_underscore fun x hx => by
        have hx2 := hall x hx
        rw [beq_eq_false_iff_ne]
        intro e
        rw [e] at hx2
        revert hx2
        decide
    rw [validDigitGroup]
    show ((isDigitChar c
      && (match (c :: rest).getLast? with
          | Option.some x => isDigitChar x
          | Option.none => false))
      && noDoubleUnderscore (c :: rest)) = true
    rw [hd]
    show ((isDigitChar c && isDigitChar d) && noDoubleUnderscore (c :: rest)) = true
    rw [h1, h3, h4]
    rfl

/-- An all-digit string is none of the non-finite float tokens. -/
theorem pyFloatSpecialCore_false_of_digits {ds : List Char}
    (hall : ∀ c ∈ ds, isDigitChar c = true) : pyFloatSpecialCore ds = false := by
  have h1 : (ds == "nan".data) = false := by
    rw [beq_eq_false_iff_ne]
    intro e
    have hn := hall 'n' (by rw [e]; decide)
    revert hn
    decide
  have h2 : (ds == "inf".data) = false := by
    rw [beq_eq_false_iff_ne]
    intro e
    have hn := hall 'i' (by rw [e]; decide)
    revert hn
    decide
  have h3 : (ds == "infinity".data) = false := by
    rw [beq_eq_false_iff_ne]
    intro e
    have hn := hall 'i' (by rw [e]; decide)
    revert hn
    decide
  rw [pyFloatSpecialCore, h1, h2, h3]
  rfl

/-- The float parse of a non-empty all-digit string is its digit value. -/
theorem pyFloatOpt_digits {ds : List Char} (hne : ds ≠ [])
    (hall : ∀ c ∈ ds, isDigitChar c = true) :
    pyFloatOpt ds = Option.some ((digitsVal ds : ℚ)) := by
  have ht : trimList ds = ds :=
    trimList_eq_self (no_space_of_digits_mk fun c hc => Or.inl (hall c hc))
  have hsp : splitSignQ (trimList ds) = (1, ds) := by
    rw [ht]
    cases ds with
    | nil => exact absurd rfl hne
    | cons c r =>
      have hc := hall c (List.mem_cons_self c r)
      rw [isDigitChar, decide_eq_true_iff] at hc
      have hplus : c ≠ '+' := fun e => by rw [e] at hc; revert hc; decide
      have hminus : c ≠ '-' := fun e => by rw [e] at hc; revert hc; decide
      show (if c = '+' then ((1 : ℚ), r) else if c = '-' then ((-1 : ℚ), r)
        else (1, c :: r)) = (1, c :: r)
      rw [if_neg hplus, if_neg hminus]
  have hlow : pyLower ds = ds := pyLower_of_digits_mk fun c hc => Or.inl (hall c hc)
  have hspec : pyFloatSpecialCore ds = false := pyFloatSpecialCore_false_of_digits hall
  have htw : ds.takeWhile isDigitOrUnderscore = ds :=
    takeWhile_eq_self_of_true fun c hc => by
      rw [isDigitOrUnderscore, hall c hc, Bool.true_or]
  have hvg : validDigitGroup ds = true := validDigitGroup_of_digits hne hall
  have hemp : ds.isEmpty = false := by
    rw [List.isEmpty_eq_false]
    exact hne
  have hgv : groupVal ds = digitsVal ds := by
    rw [groupVal, List.filter_eq_self.2 hall]
  simp [pyFloatOpt, hsp, hlow, hspec, htw, List.drop_length, hemp, hvg, hgv]

/-- The multiplier split on a digit string with trailing `m`. -/
theorem feeMultiplier_append_m (ds : List Char) :
    feeMultiplier (ds ++ ['m']) = ((1000000 : ℚ), ds) := by
  unfold feeMultiplier
  rw [List.getLast?_concat, if_pos rfl, List.dropLast_concat]

/-- The multiplier split on a digit string with trailing `k`. -/
theorem feeMultiplier_append_k (ds : List Char) :
    feeMultiplier (ds ++ ['k']) = ((1000 : ℚ), ds) := by
  unfold feeMultiplier
  rw [List.getLast?_concat, if_neg (by decide), if_pos rfl, List.dropLast_concat]

/-- The multiplier split on a plain digit string: no suffix, factor 1. -/
theorem feeMultiplier_digits {ds : List Char}
    (hall : ∀ c ∈ ds, isDigitChar c = true) : feeMultiplier ds = (1, ds) := by
  have hm : ds.getLast? ≠ Option.some 'm' := by
    intro h
    have := hall 'm' (List.mem_of_getLast?_eq_some h)
    revert this
    decide
  have hk : ds.getLast? ≠ Option.some 'k' := by
    intro h
    have := hall 'k' (List.mem_of_getLast?_eq_some h)
    revert this
    decide
  unfold feeMultiplier
  rw [if_neg hm, if_neg hk]

/-- On digit / `m` / `k` strings, the fee parser reduces to the multiplier /
float-parse pipeline on the string itself. -/
theorem parseFeeStr_eval_of_digits_mk {s : List Char} (hne : s ≠ [])
    (h : ∀ c ∈ s, isDigitChar c = true ∨ c = 'm' ∨ c = 'k') :
    parseFeeStr s =
      match pyFloatOpt (feeMultiplier s).2 with
      | Option.some q => q * (feeMultiplier s).1
      | Option.none => 0 := by
  have ht : trimList s = s := trimList_eq_self (no_space_of_digits_mk h)
  have hl : pyLower s = s := pyLower_of_digits_mk h
  have hcl : feeCleaned s = s := feeCleaned_of_digits_mk h
  have h1 : (trimList s).isEmpty = false := by
    rw [ht, List.isEmpty_eq_false]
    exact hne
  have h2 : hasNonCashMarker (pyLower (trimList s)) = false := by
    rw [ht, hl]
    exact hasNonCashMarker_false_of_digits_mk h
  have hres := parseFeeStr_no_marker h1 h2
  rw [hres, ht, hl, hcl]

/-- The parsed fee of `<digits>m` is the digit value ×1,000,000. -/
theorem parseFeeStr_digits_m {ds : List Char} (hne : ds ≠ [])
    (hall : ∀ c ∈ ds, isDigitChar c = true) :
    parseFeeStr (ds ++ ['m']) = (digitsVal ds : ℚ) * 1000000 := by
  have h' : ∀ c ∈ ds ++ ['m'], isDigitChar c = true ∨ c = 'm' ∨ c = 'k' := by
    intro c hc
    rcases List.mem_append.1 hc with hc | hc
    · exact Or.inl (hall c hc)
    · rcases List.mem_singleton.1 hc with rfl
      exact Or.inr (Or.inl rfl)
  rw [parseFeeStr_eval_of_digits_mk (by simp) h']
  simp only [feeMultiplier_append_m, pyFloatOpt_digits hne hall]

/-- The parsed fee of `<digits>k` is the digit value ×1,000. -/
theorem parseFeeStr_digits_k {ds : List Char} (hne : ds ≠ [])
    (hall : ∀ c ∈ ds, isDigitChar c = true) :
    parseFeeStr (ds ++ ['k']) = (digitsVal ds : ℚ) * 1000 := by
  have h' : ∀ c ∈ ds ++ ['k'], isDigitChar c = true ∨ c = 'm' ∨ c = 'k' := by
    intro c hc
    rcases List.mem_append.1 hc with hc | hc
    · exact Or.inl (hall c hc)
    · rcases List.mem_singleton.1 hc with rfl
      exact Or.inr (Or.inr rfl)
  rw [parseFeeStr_eval_of_digits_mk (by simp) h']
  simp only [feeMultiplier_append_k, pyFloatOpt_digits hne hall]

/-- The parsed fee of a plain digit string is its digit value. -/
theorem parseFeeStr_digits_plain {ds : List Char} (hne : ds ≠ [])
    (hall : ∀ c ∈ ds, isDigitChar c = true) :
    parseFeeStr ds = (digitsVal ds : ℚ) := by
  rw [parseFeeStr_eval_of_digits_mk hne (fun c hc => Or.inl (hall c hc))]
  simp only [feeMultiplier_digits hall, pyFloatOpt_digits hne hall]
  exact mul_one _

/-! ### Claim C1: the fee-parsing rules -/

unseal Rat.mul Rat.add Rat.inv Rat.sub in
/-- Concrete evaluation: `10m`. -/
theorem parse_fee_ex_10m : parse_fee (PyVal.str "10m".data) = 10000000 := by decide

unseal Rat.mul Rat.add Rat.inv Rat.sub in
/-- Concrete evaluation: `500k`. -/
theorem parse_fee_ex_500k : parse_fee (PyVal.str "500k".data) = 500000 := by decide

unseal Rat.mul Rat.add Rat.inv Rat.sub in
/-- Concrete evaluation: `€35m`. -/
theorem parse_fee_ex_eur35m : parse_fee (PyVal.str "€35m".data) = 35000000 := by decide

/-- Concrete evaluation: `free`. -/
theorem parse_fee_ex_free : parse_fee (PyVal.str "free".data) = 0 := by decide

/-- Concrete evaluation: `loan`. -/
theorem parse_fee_ex_loan : parse_fee (PyVal.str "loan".data) = 0 := by decide

/-- Concrete evaluation: `garbage`. -/
theorem parse_fee_ex_garbage : parse_fee (PyVal.str "garbage".data) = 0 := by decide

/-- C1: a non-cash marker in the lower-cased text forces 0; otherwise the
currency tokens are stripped and a trailing `m`/`k` scales the parsed number
by 1,000,000 / 1,000 (shown in full generality on digit strings, and via the
general characterisation: whenever the cleaned remainder parses, the result
is the parsed float times the multiplier); and the spec's concrete examples
`10m`, `500k`, `€35m`, `free`, `loan`, `None`, `garbage` evaluate as
stated. -/
theorem claim_C1 :
    (∀ s : List Char, hasNonCashMarker (pyLower (trimList s)) = true →
      parse_fee (PyVal.str s) = 0)
    ∧ (∀ ds : List Char, ds ≠ [] → (∀ c ∈ ds, isDigitChar c = true) →
      parse_fee (PyVal.str (ds ++ ['m'])) = (digitsVal ds : ℚ) * 1000000
      ∧ parse_fee (PyVal.str (ds ++ ['k'])) = (digitsVal ds : ℚ) * 1000
      ∧ parse_fee (PyVal.str ds) = (digitsVal ds : ℚ))
    ∧ (∀ (s : List Char) (q : ℚ), (trimList s).isEmpty = false →
      hasNonCashMarker (pyLower (trimList s)) = false →
      pyFloatOpt (feeMultiplier (feeCleaned (pyLower (trimList s)))).2 = Option.some q →
      parse_fee (PyVal.str s) = q * (feeMultiplier (feeCleaned (pyLower (trimList s)))).1)
    ∧ parse_fee (PyVal.str "10m".data) = 10000000
    ∧ parse_fee (PyVal.str "500k".data) = 500000
    ∧ parse_fee (PyVal.str "€35m".data) = 35000000
    ∧ parse_fee (PyVal.str "free".data) = 0
    ∧ parse_fee (PyVal.str "loan".data) = 0
    ∧ parse_fee PyVal.none = 0
    ∧ parse_fee (PyVal.str "garbage".data) = 0 := by
  refine ⟨?_, ?_, ?_, parse_fee_ex_10m, parse_fee_ex_500k, parse_fee_ex_eur35m,
    parse_fee_ex_free, parse_fee_ex_loan, rfl, parse_fee_ex_garbage⟩
  · intro s h
    exact parseFeeStr_of_marker h
  · intro ds hne hall
    exact ⟨parseFeeStr_digits_m hne hall, parseFeeStr_digits_k hne hall,
      parseFeeStr_digits_plain hne hall⟩
  · intro s q h1 h2 hq
    rw [show parse_fee (PyVal.str s) = parseFeeStr s from rfl,
      parseFeeStr_no_marker h1 h2, hq]

/-- C1 witness: the marker rule applied at `free` and the trailing-`m` rule
applied at the digit string `10`. -/
theorem claim_C1_witness :
    (hasNonCashMarker (pyLower (trimList "free".data)) = true
      ∧ parse_fee (PyVal.str "free".data) = 0)
    ∧ ("10".data ≠ [] ∧ (∀ c ∈ "10".data, isDigitChar c = true)
      ∧ parse_fee (PyVal.str ("10".data ++ ['m'])) = (digitsVal "10".data : ℚ) * 1000000) :=
  ⟨⟨by decide, claim_C1.1 _ (by decide)⟩,
    ⟨by decide, by decide, (claim_C1.2.1 _ (by decide) (by decide)).1⟩⟩

/-! ### Claim C2: totality and sign of the fee parser -/

/-- C2 counterexample: a negative numeric input is passed through unchanged,
so `parse_fee` is not `≥ 0` on every input. -/
theorem claim_C2_counterexample : parse_fee (PyVal.num (-1)) < 0 := by decide

/-- C2 (amended): `parse_fee` is a total function; null inputs give 0;
numeric inputs are cast unchanged (so a negative numeric passes through);
a string whose cleaned remainder is not a non-finite `float()` token
(`nan`/`inf`, on which the program propagates the non-finite float — NaN in
particular is not ≥ 0) gives a non-negative value, with an unparsable
remainder giving 0 rather than an error; and `fee_eur ≥ 0` holds for every
enriched row whose raw `transfer_fee` is neither a negative number nor a
string with a non-finite remainder. -/
theorem claim_C2_amended :
    parse_fee PyVal.none = 0
    ∧ (∀ q : ℚ, parse_fee (PyVal.num q) = q)
    ∧ (∀ s : List Char,
      pyFloatSpecial (feeMultiplier (feeCleaned (pyLower (trimList s)))).2 = false →
      0 ≤ parse_fee (PyVal.str s))
    ∧ (∀ s : List Char, hasNonCashMarker (pyLower (trimList s)) = false →
      pyFloatSpecial (feeMultiplier (feeCleaned (pyLower (trimList s)))).2 = false →
      pyFloatOpt (feeMultiplier (feeCleaned (pyLower (trimList s)))).2 = Option.none →
      parse_fee (PyVal.str s) = 0)
    ∧ (∀ (raws : List RawTransfer) (m : List (ℤ × String)),
      (∀ r ∈ raws, feeInputOk r.transfer_fee = true) →
      ∀ t ∈ build_transfer_enriched raws m, 0 ≤ t.fee_eur) := by
  refine ⟨rfl, fun q => rfl, fun s _ => parse_fee_str_nonneg s, ?_, ?_⟩
  · intro s hm _ hP
    by_cases he : (trimList s).isEmpty = true
    · exact parseFeeStr_of_empty he
    · rw [show parse_fee (PyVal.str s) = parseFeeStr s from rfl,
        parseFeeStr_no_marker (by simpa using he) hm, hP]
  · intro raws m hok t ht
    rw [build_transfer_enriched, List.mem_map] at ht
    obtain ⟨r, hr, rfl⟩ := ht
    show 0 ≤ parse_fee r.transfer_fee
    cases hv : r.transfer_fee with
    | none => exact le_refl 0
    | num q =>
      have := hok r hr
      rw [hv, feeInputOk, decide_eq_true_iff] at this
      exact this
    | str s => exact parse_fee_str_nonneg s

/-- C2 witness: the finite unparsable remainder `garbage` yields exactly 0. -/
theorem claim_C2_witness :
    hasNonCashMarker (pyLower (trimList "garbage".data)) = false
    ∧ pyFloatSpecial (feeMultiplier (feeCleaned (pyLower (trimList "garbage".data)))).2 = false
    ∧ pyFloatOpt (feeMultiplier (feeCleaned (pyLower (trimList "garbage".data)))).2 = Option.none
    ∧ parse_fee (PyVal.str "garbage".data) = 0 :=
  ⟨by decide, by decide, by decide,
    claim_C2_amended.2.2.2.1 _ (by decide) (by decide) (by decide)⟩

/-! ### Claim C3: country bucketing -/

/-- C3: a mapped club id always wins (taking precedence over every
name-based heuristic); otherwise a non-null string name containing
`without club`/`no club` gives `Without Club`, else `retired` gives
`Retired`, and everything else gives `Unknown`; including the spec's two
concrete examples. -/
theorem claim_C3 :
    (∀ (i : ℤ) (name : PyVal) (m : List (ℤ × String)) (c : String),
      m.lookup i = Option.some c → classify_club_country (Option.some i) name m = c)
    ∧ (∀ (cid : Option ℤ) (name : PyVal) (m : List (ℤ × String)),
      (cid = Option.none ∨ ∃ i, cid = Option.some i ∧ m.lookup i = Option.none) →
      classify_club_country cid name m = classifyByName name)
    ∧ (∀ s : List Char,
      (isSubstr "without club".data (pyLower (trimList s)) = true
        ∨ isSubstr "no club".data (pyLower (trimList s)) = true) →
      classifyByName (PyVal.str s) = "Without Club")
    ∧ (∀ s : List Char,
      isSubstr "without club".data (pyLower (trimList s)) = false →
      isSubstr "no club".data (pyLower (trimList s)) = false →
      isSubstr "retired".data (pyLower (trimList s)) = true →
      classifyByName (PyVal.str s) = "Retired")
    ∧ (∀ s : List Char,
      isSubstr "without club".data (pyLower (trimList s)) = false →
      isSubstr "no club".data (pyLower (trimList s)) = false →
      isSubstr "retired".data (pyLower (trimList s)) = false →
      classifyByName (PyVal.str s) = "Unknown")
    ∧ (∀ q : ℚ, classifyByName (PyVal.num q) = "Unknown")
    ∧ classifyByName PyVal.none = "Unknown"
    ∧ classify_club_country Option.none (PyVal.str "FC Without Club".data) [] = "Without Club"
    ∧ (∀ name : PyVal, classify_club_country (Option.some 7) name [(7, "Spain")] = "Spain") := by
  refine ⟨?_, ?_, ?_, ?_, ?_, fun q => rfl, rfl, by decide, fun name => rfl⟩
  · intro i name m c h
    simp only [classify_club_country, h]
  · intro cid name m h
    rcases h with rfl | ⟨i, rfl, hl⟩
    · rfl
    · simp only [classify_club_country, hl]
  · intro s h
    simp only [classifyByName]
    rw [if_pos]
    rcases h with h | h
    · rw [h, Bool.true_or]
    · rw [h, Bool.or_true]
  · intro s h1 h2 h3
    simp only [classifyByName]
    rw [if_neg (by rw [h1, h2]; simp), if_pos h3]
  · intro s h1 h2 h3
    simp only [classifyByName]
    rw [if_neg (by rw [h1, h2]; simp), if_neg (by rw [h3]; simp)]

/-- C3 witness: the id-precedence rule applied at the concrete map
`{7 → Spain}`. -/
theorem claim_C3_witness :
    List.lookup (7 : ℤ) [((7 : ℤ), "Spain")] = Option.some "Spain"
    ∧ classify_club_country (Option.some 7) PyVal.none [(7, "Spain")] = "Spain" :=
  ⟨by decide, claim_C3.1 7 PyVal.none _ _ (by decide)⟩

/-! ### Claim C7: ordered_rows on the spec's example -/

/-- C7 counterexample: `ordered_rows` does not drop `Unknown` — the claimed
output `["France", "Spain", "Retired"]` is wrong on the code. -/
theorem claim_C7_counterexample :
    ordered_rows ["France", "Unknown", "Spain", "Retired"] ["Without Club", "Retired"]
      ≠ ["France", "Spain", "Retired"] := by decide

/-- C7 (amended): on the spec's example the labels not in extras form the
alphabetical core with `Unknown` kept (`ordered_rows` never drops or invents
labels), and the extras present are appended at the end in extras order. -/
theorem claim_C7_amended :
    ordered_rows ["France", "Unknown", "Spain", "Retired"] ["Without Club", "Retired"]
      = ["France", "Spain", "Unknown", "Retired"]
    ∧ (∀ (l e : List String) (x : String), x ∈ ordered_rows l e ↔ x ∈ l) :=
  ⟨by decide, mem_ordered_rows⟩

/-! ### Claim C8: chronological season sorting -/

/-- C8: seasons sort by the key of the first two-digit year (≥ 90 → 1900s,
< 90 → 2000s), unparsable labels get the sentinel 9999 exceeding every
two-digit key, and the spec's example orders as stated. -/
theorem claim_C8 :
    (∀ seasons : List String,
      List.Pairwise (fun a b => season_sort_key a ≤ season_sort_key b)
        (sort_seasons_chronologically seasons)
      ∧ List.Perm (sort_seasons_chronologically seasons) seasons)
    ∧ (∀ (s : String) (y : ℤ), pyIntOpt (takeBeforeSlash s.data) = Option.some y →
      season_sort_key s = (if 90 ≤ y then 1900 + y else 2000 + y))
    ∧ (∀ (s : String) (y : ℤ), pyIntOpt (takeBeforeSlash s.data) = Option.some y →
      0 ≤ y → y ≤ 99 → season_sort_key s < 9999)
    ∧ (∀ s : String, pyIntOpt (takeBeforeSlash s.data) = Option.none →
      season_sort_key s = 9999)
    ∧ sort_seasons_chronologically ["99/00", "00/01", "89/90", "90/91"]
      = ["90/91", "99/00", "00/01", "89/90"] := by
  refine ⟨?_, ?_, ?_, ?_, by decide⟩
  · intro seasons
    constructor
    · have hp := pairwise_sortByLe (fun a b => decide (season_sort_key a ≤ season_sort_key b))
        (fun a b c h1 h2 => by
          rw [decide_eq_true_iff] at h1 h2 ⊢
          exact le_trans h1 h2)
        (fun a b => by
          rcases le_total (season_sort_key a) (season_sort_key b) with h | h
          · exact Or.inl (by rw [decide_eq_true_iff]; exact h)
          · exact Or.inr (by rw [decide_eq_true_iff]; exact h))
        seasons
      exact hp.imp (fun h => decide_eq_true_iff.1 h)
    · exact sortByLe_perm _ seasons
  · intro s y h
    simp only [season_sort_key, seasonYearOpt, h]
  · intro s y h h0 h99
    simp only [season_sort_key, seasonYearOpt, h]
    split <;> omega
  · intro s h
    simp only [season_sort_key, seasonYearOpt, h]

/-- C8 witness: the century rule applied at `89/90` (first year 89 → 2089). -/
theorem claim_C8_witness :
    pyIntOpt (takeBeforeSlash ("89/90" : String).data) = Option.some 89
    ∧ season_sort_key "89/90" = (if (90 : ℤ) ≤ 89 then 1900 + 89 else 2000 + 89) :=
  ⟨by decide, claim_C8.2.1 "89/90" 89 (by decide)⟩

/-! ### Aggregation-matrix lemmas -/

/-- Boolean containment from membership. -/
theorem contains_of_mem {α : Type} [BEq α] [LawfulBEq α] {a : α} {l : List α}
    (h : a ∈ l) : l.contains a = true := by
  rw [List.contains_eq_any_beq, List.any_eq_true]
  exact ⟨a, h, beq_self_eq_true a⟩

/-- The columns of every built matrix are exactly the requested ids. -/
theorem aggMat_cols (t : List Transfer) (topIds : List ℤ) (rowOf : Transfer → String)
    (colOf : Transfer → Option ℤ) (val : Transfer → ℚ) (extras : List String) :
    (aggMat t topIds rowOf colOf val extras).cols = topIds := by
  unfold aggMat
  by_cases h : t.isEmpty = true
  · rw [if_pos h]
  · rw [if_neg h]

/-- A matrix built from no qualifying transfers has no rows. -/
theorem aggMat_rows_of_empty {t : List Transfer} (topIds : List ℤ)
    (rowOf : Transfer → String) (colOf : Transfer → Option ℤ) (val : Transfer → ℚ)
    (extras : List String) (h : t = []) :
    (aggMat t topIds rowOf colOf val extras).rows = [] := by
  unfold aggMat
  rw [if_pos (by rw [h]; rfl)]

/-- A matrix built from qualifying transfers has the `ordered_rows` of their
distinct row labels. -/
theorem aggMat_rows_of_ne {t : List Transfer} (topIds : List ℤ)
    (rowOf : Transfer → String) (colOf : Transfer → Option ℤ) (val : Transfer → ℚ)
    (extras : List String) (h : t ≠ []) :
    (aggMat t topIds rowOf colOf val extras).rows
      = ordered_rows ((t.map rowOf).dedup) extras := by
  unfold aggMat
  rw [if_neg (by rw [List.isEmpty_iff]; simp [h])]

/-- The cell formula of a non-empty built matrix. -/
theorem aggMat_entry_of_ne {t : List Transfer} (topIds : List ℤ)
    (rowOf : Transfer → String) (colOf : Transfer → Option ℤ) (val : Transfer → ℚ)
    (extras : List String) (c : String) (i : ℤ) (h : t ≠ []) :
    (aggMat t topIds rowOf colOf val extras).entry c i
      = ((t.filter (fun r => rowOf r == c && colOf r == Option.some i)).map val).sum := by
  unfold aggMat
  rw [if_neg (by rw [List.isEmpty_iff]; simp [h])]

/-- The empty built matrix has all-zero cells. -/
theorem aggMat_entry_of_empty {t : List Transfer} (topIds : List ℤ)
    (rowOf : Transfer → String) (colOf : Transfer → Option ℤ) (val : Transfer → ℚ)
    (extras : List String) (c : String) (i : ℤ) (h : t = []) :
    (aggMat t topIds rowOf colOf val extras).entry c i = 0 := by
  unfold aggMat
  rw [if_pos (by rw [h]; rfl)]

/-- Cells with no matching transfer are zero-filled. -/
theorem aggMat_entry_zero {t : List Transfer} (topIds : List ℤ)
    (rowOf : Transfer → String) (colOf : Transfer → Option ℤ) (val : Transfer → ℚ)
    (extras : List String) (c : String) (i : ℤ)
    (h : ∀ r ∈ t, ¬(rowOf r = c ∧ colOf r = Option.some i)) :
    (aggMat t topIds rowOf colOf val extras).entry c i = 0 := by
  by_cases he : t = []
  · exact aggMat_entry_of_empty topIds rowOf colOf val extras c i he
  · rw [aggMat_entry_of_ne topIds rowOf colOf val extras c i he]
    have hnil : t.filter (fun r => rowOf r == c && colOf r == Option.some i) = [] := by
      rw [List.filter_eq_nil_iff]
      intro r hr hc
      rw [Bool.and_eq_true, beq_iff_eq, beq_iff_eq] at hc
      exact h r hr hc
    rw [hnil]
    rfl

/-- Every row label of a built matrix is the row label of some qualifying
transfer. -/
theorem aggMat_rows_subset {t : List Transfer} (topIds : List ℤ)
    (rowOf : Transfer → String) (colOf : Transfer → Option ℤ) (val : Transfer → ℚ)
    (extras : List String) {x : String}
    (h : x ∈ (aggMat t topIds rowOf colOf val extras).rows) : ∃ r ∈ t, rowOf r = x := by
  by_cases he : t = []
  · rw [aggMat_rows_of_empty topIds rowOf colOf val extras he] at h
    exact absurd h (List.not_mem_nil x)
  · rw [aggMat_rows_of_ne topIds rowOf colOf val extras he] at h
    rw [mem_ordered_rows, List.mem_dedup, List.mem_map] at h
    obtain ⟨r, hr, hrx⟩ := h
    exact ⟨r, hr, hrx⟩

/-- The row label of every qualifying transfer appears among the rows. -/
theorem aggMat_mem_rows {t : List Transfer} (topIds : List ℤ)
    (rowOf : Transfer → String) (colOf : Transfer → Option ℤ) (val : Transfer → ℚ)
    (extras : List String) {r : Transfer} (h : r ∈ t) :
    rowOf r ∈ (aggMat t topIds rowOf colOf val extras).rows := by
  rw [aggMat_rows_of_ne topIds rowOf colOf val extras (List.ne_nil_of_mem h)]
  rw [mem_ordered_rows, List.mem_dedup, List.mem_map]
  exact ⟨r, h, rfl⟩

/-- The exclusion filter of the money matrices, element-wise. -/
theorem not_contains_defaultExtras_iff (s : String) :
    (!defaultExtras.contains s) = true ↔ (s ≠ "Without Club" ∧ s ≠ "Retired") := by
  rw [Bool.not_eq_true', List.contains_eq_any_beq]
  simp only [defaultExtras, List.any_cons, List.any_nil, Bool.or_eq_false_iff,
    beq_eq_false_iff_ne]
  tauto

/-- Membership in the money-in qualifying set, spelled out. -/
theorem mem_moneyInQualifying (topIds : List ℤ) (tf : List Transfer) (r : Transfer) :
    r ∈ moneyInQualifying topIds tf ↔
      (r ∈ tf ∧ optMem r.to_club_id topIds = true ∧ 0 < r.fee_eur
        ∧ r.from_country ≠ "Without Club" ∧ r.from_country ≠ "Retired") := by
  simp only [moneyInQualifying, List.mem_filter, decide_eq_true_iff]
  rw [not_contains_defaultExtras_iff]
  tauto

/-- Membership in the money-out qualifying set, spelled out. -/
theorem mem_moneyOutQualifying (topIds : List ℤ) (tf : List Transfer) (r : Transfer) :
    r ∈ moneyOutQualifying topIds tf ↔
      (r ∈ tf ∧ optMem r.from_club_id topIds = true ∧ 0 < r.fee_eur
        ∧ r.to_country ≠ "Without Club" ∧ r.to_country ≠ "Retired") := by
  simp only [moneyOutQualifying, List.mem_filter, decide_eq_true_iff]
  rw [not_contains_defaultExtras_iff]
  tauto

/-- Removing the zero-fee transfers first does not change the money-in
qualifying set: the `fee_eur > 0` filter already discards them. -/
theorem moneyInQualifying_drop_zero (topIds : List ℤ) (tf : List Transfer) :
    moneyInQualifying topIds (tf.filter (fun r => !(r.fee_eur == 0)))
      = moneyInQualifying topIds tf := by
  simp only [moneyInQualifying, List.filter_filter]
  refine List.filter_congr ?_
  intro a _
  by_cases hf : (0 : ℚ) < a.fee_eur
  · have h0 : (a.fee_eur == (0 : ℚ)) = false := by
      rw [beq_eq_false_iff_ne]
      exact ne_of_gt hf
    simp [hf, h0]
  · simp [hf]

/-- Removing the zero-fee transfers first does not change the money-out
qualifying set. -/
theorem moneyOutQualifying_drop_zero (topIds : List ℤ) (tf : List Transfer) :
    moneyOutQualifying topIds (tf.filter (fun r => !(r.fee_eur == 0)))
      = moneyOutQualifying topIds tf := by
  simp only [moneyOutQualifying, List.filter_filter]
  refine List.filter_congr ?_
  intro a _
  by_cases hf : (0 : ℚ) < a.fee_eur
  · have h0 : (a.fee_eur == (0 : ℚ)) = false := by
      rw [beq_eq_false_iff_ne]
      exact ne_of_gt hf
    simp [hf, h0]
  · simp [hf]

/-- The players-in cell counts matching transfers of the full enriched set,
fee ignored. -/
theorem players_in_entry_count (topIds : List ℤ) (tf : List Transfer) {i : ℤ}
    (hi : i ∈ topIds) (c : String) :
    (players_in_matrix topIds tf).entry c i
      = ((tf.filter (fun r => r.from_country == c && r.to_club_id == Option.some i)).length
          : ℚ) := by
  have habs : (playersInQualifying topIds tf).filter
      (fun r => r.from_country == c && r.to_club_id == Option.some i)
      = tf.filter (fun r => r.from_country == c && r.to_club_id == Option.some i) := by
    unfold playersInQualifying
    refine filter_absorb tf _ _ ?_
    intro a ha
    rw [Bool.and_eq_true, beq_iff_eq, beq_iff_eq] at ha
    show optMem a.to_club_id topIds = true
    rw [ha.2]
    exact contains_of_mem hi
  unfold players_in_matrix
  by_cases he : playersInQualifying topIds tf = []
  · rw [aggMat_entry_of_empty _ _ _ _ _ c i he]
    have hnil : tf.filter (fun r => r.from_country == c && r.to_club_id == Option.some i)
        = [] := by
      rw [← habs, he, List.filter_nil]
    rw [hnil]
    rfl
  · rw [aggMat_entry_of_ne _ _ _ _ _ c i he, habs, sum_map_one]

/-- The players-out cell counts matching transfers of the full enriched set,
fee ignored. -/
theorem players_out_entry_count (topIds : List ℤ) (tf : List Transfer) {i : ℤ}
    (hi : i ∈ topIds) (c : String) :
    (players_out_matrix topIds tf).entry c i
      = ((tf.filter (fun r => r.to_country == c && r.from_club_id == Option.some i)).length
          : ℚ) := by
  have habs : (playersOutQualifying topIds tf).filter
      (fun r => r.to_country == c && r.from_club_id == Option.some i)
      = tf.filter (fun r => r.to_country == c && r.from_club_id == Option.some i) := by
    unfold playersOutQualifying
    refine filter_absorb tf _ _ ?_
    intro a ha
    rw [Bool.and_eq_true, beq_iff_eq, beq_iff_eq] at ha
    show optMem a.from_club_id topIds = true
    rw [ha.2]
    exact contains_of_mem hi
  unfold players_out_matrix
  by_cases he : playersOutQualifying topIds tf = []
  · rw [aggMat_entry_of_empty _ _ _ _ _ c i he]
    have hnil : tf.filter (fun r => r.to_country == c && r.from_club_id == Option.some i)
        = [] := by
      rw [← habs, he, List.filter_nil]
    rw [hnil]
    rfl
  · rw [aggMat_entry_of_ne _ _ _ _ _ c i he, habs, sum_map_one]

/-! ### Claim C4: zero-fee transfers and the four matrices -/

/-- C4: dropping all zero-fee transfers leaves `money_in_matrix` and
`money_out_matrix` unchanged (a `fee_eur == 0` transfer contributes to no
cell), while each players-matrix cell counts every matching transfer record
of the enriched set, fee ignored. -/
theorem claim_C4 (topIds : List ℤ) (tf : List Transfer) :
    money_in_matrix topIds (tf.filter (fun r => !(r.fee_eur == 0)))
      = money_in_matrix topIds tf
    ∧ money_out_matrix topIds (tf.filter (fun r => !(r.fee_eur == 0)))
      = money_out_matrix topIds tf
    ∧ (∀ i ∈ topIds, ∀ c : String,
      (players_in_matrix topIds tf).entry c i
        = ((tf.filter (fun r => r.from_country == c && r.to_club_id == Option.some i)).length
            : ℚ))
    ∧ (∀ i ∈ topIds, ∀ c : String,
      (players_out_matrix topIds tf).entry c i
        = ((tf.filter (fun r => r.to_country == c && r.from_club_id == Option.some i)).length
            : ℚ)) := by
  refine ⟨?_, ?_, ?_, ?_⟩
  · unfold money_in_matrix
    rw [moneyInQualifying_drop_zero]
  · unfold money_out_matrix
    rw [moneyOutQualifying_drop_zero]
  · intro i hi c
    exact players_in_entry_count topIds tf hi c
  · intro i hi c
    exact players_out_entry_count topIds tf hi c

/-- C4 witness: with club list `[1]` and the transfers `[tEx1, tEx0]`
(`tEx0` has fee 0), the zero-fee row is counted in the players-in cell. -/
theorem claim_C4_witness :
    (1 : ℤ) ∈ [(1 : ℤ)]
    ∧ (players_in_matrix [1] [tEx1, tEx0]).entry "France" 1
      = (([tEx1, tEx0].filter
          (fun r => r.from_country == "France" && r.to_club_id == Option.some 1)).length : ℚ) :=
  ⟨by decide, (claim_C4 [1] [tEx1, tEx0]).2.2.1 1 (by decide) "France"⟩

/-! ### Claim C5: column completeness, empty results and row order -/

/-- C5: for each of the four builders, the column list is exactly the
requested club ids (never dropped, never extended), an empty qualifying set
yields a well-formed matrix with zero rows and the full column set, a
non-empty qualifying set yields rows ordered by `ordered_rows` with the
matrix-specific extras, and cells with no matching transfer are 0. -/
theorem claim_C5 (topIds : List ℤ) (tf : List Transfer) :
    ((money_in_matrix topIds tf).cols = topIds
      ∧ (moneyInQualifying topIds tf = [] → (money_in_matrix topIds tf).rows = [])
      ∧ (moneyInQualifying topIds tf ≠ [] → (money_in_matrix topIds tf).rows
          = ordered_rows (((moneyInQualifying topIds tf).map (fun r => r.from_country)).dedup)
              defaultExtras)
      ∧ ∀ (c : String) (i : ℤ),
        (∀ r ∈ moneyInQualifying topIds tf,
          ¬(r.from_country = c ∧ r.to_club_id = Option.some i)) →
        (money_in_matrix topIds tf).entry c i = 0)
    ∧ ((money_out_matrix topIds tf).cols = topIds
      ∧ (moneyOutQualifying topIds tf = [] → (money_out_matrix topIds tf).rows = [])
      ∧ (moneyOutQualifying topIds tf ≠ [] → (money_out_matrix topIds tf).rows
          = ordered_rows (((moneyOutQualifying topIds tf).map (fun r => r.to_country)).dedup)
              defaultExtras)
      ∧ ∀ (c : String) (i : ℤ),
        (∀ r ∈ moneyOutQualifying topIds tf,
          ¬(r.to_country = c ∧ r.from_club_id = Option.some i)) →
        (money_out_matrix topIds tf).entry c i = 0)
    ∧ ((players_in_matrix topIds tf).cols = topIds
      ∧ (playersInQualifying topIds tf = [] → (players_in_matrix topIds tf).rows = [])
      ∧ (playersInQualifying topIds tf ≠ [] → (players_in_matrix topIds tf).rows
          = ordered_rows (((playersInQualifying topIds tf).map (fun r => r.from_country)).dedup)
              ["Without Club"])
      ∧ ∀ (c : String) (i : ℤ),
        (∀ r ∈ playersInQualifying topIds tf,
          ¬(r.from_country = c ∧ r.to_club_id = Option.some i)) →
        (players_in_matrix topIds tf).entry c i = 0)
    ∧ ((players_out_matrix topIds tf).cols = topIds
      ∧ (playersOutQualifying topIds tf = [] → (players_out_matrix topIds tf).rows = [])
      ∧ (playersOutQualifying topIds tf ≠ [] → (players_out_matrix topIds tf).rows
          = ordered_rows (((playersOutQualifying topIds tf).map (fun r => r.to_country)).dedup)
              defaultExtras)
      ∧ ∀ (c : String) (i : ℤ),
        (∀ r ∈ playersOutQualifying topIds tf,
          ¬(r.to_country = c ∧ r.from_club_id = Option.some i)) →
        (players_out_matrix topIds tf).entry c i = 0) := by
  refine ⟨⟨aggMat_cols _ _ _ _ _ _, ?_, ?_, ?_⟩, ⟨aggMat_cols _ _ _ _ _ _, ?_, ?_, ?_⟩,
    ⟨aggMat_cols _ _ _ _ _ _, ?_, ?_, ?_⟩, ⟨aggMat_cols _ _ _ _ _ _, ?_, ?_, ?_⟩⟩
  · exact fun h => aggMat_rows_of_empty _ _ _ _ _ h
  · exact fun h => aggMat_rows_of_ne _ _ _ _ _ h
  · exact fun c i h => aggMat_entry_zero _ _ _ _ _ c i h
  · exact fun h => aggMat_rows_of_empty _ _ _ _ _ h
  · exact fun h => aggMat_rows_of_ne _ _ _ _ _ h
  · exact fun c i h => aggMat_entry_zero _ _ _ _ _ c i h
  · exact fun h => aggMat_rows_of_empty _ _ _ _ _ h
  · exact fun h => aggMat_rows_of_ne _ _ _ _ _ h
  · exact fun c i h => aggMat_entry_zero _ _ _ _ _ c i h
  · exact fun h => aggMat_rows_of_empty _ _ _ _ _ h
  · exact fun h => aggMat_rows_of_ne _ _ _ _ _ h
  · exact fun c i h => aggMat_entry_zero _ _ _ _ _ c i h

/-- C5 witness: with `topIds = [1, 2]` and one qualifying transfer into club
1, the cell for the unused requested club 2 is zero-filled. -/
theorem claim_C5_witness :
    (∀ r ∈ moneyInQualifying [1, 2] [tEx1],
      ¬(r.from_country = "Unknown" ∧ r.to_club_id = Option.some 2))
    ∧ (money_in_matrix [1, 2] [tEx1]).entry "Unknown" 2 = 0 :=
  ⟨by decide, (claim_C5 [1, 2] [tEx1]).1.2.2.2 "Unknown" 2 (by decide)⟩

/-! ### Claim C10: which country buckets the money matrices exclude -/

/-- C10: the money matrices exclude exactly the transfers whose relevant
bucket (`from_country` for money-in, `to_country` for money-out) is
`Without Club` or `Retired` — membership in the qualifying set is otherwise
the top-club and positive-fee test — so neither sentinel can appear as a
row, while `Unknown`-bucketed transfers are retained and produce an
`Unknown` row. -/
theorem claim_C10 (topIds : List ℤ) (tf : List Transfer) :
    (∀ r : Transfer, r ∈ moneyInQualifying topIds tf ↔
      (r ∈ tf ∧ optMem r.to_club_id topIds = true ∧ 0 < r.fee_eur
        ∧ r.from_country ≠ "Without Club" ∧ r.from_country ≠ "Retired"))
    ∧ "Without Club" ∉ (money_in_matrix topIds tf).rows
    ∧ "Retired" ∉ (money_in_matrix topIds tf).rows
    ∧ (∀ r ∈ moneyInQualifying topIds tf, r.from_country = "Unknown" →
        "Unknown" ∈ (money_in_matrix topIds tf).rows)
    ∧ (∀ r : Transfer, r ∈ moneyOutQualifying topIds tf ↔
      (r ∈ tf ∧ optMem r.from_club_id topIds = true ∧ 0 < r.fee_eur
        ∧ r.to_country ≠ "Without Club" ∧ r.to_country ≠ "Retired"))
    ∧ "Without Club" ∉ (money_out_matrix topIds tf).rows
    ∧ "Retired" ∉ (money_out_matrix topIds tf).rows
    ∧ (∀ r ∈ moneyOutQualifying topIds tf, r.to_country = "Unknown" →
        "Unknown" ∈ (money_out_matrix topIds tf).rows) := by
  refine ⟨mem_moneyInQualifying topIds tf, ?_, ?_, ?_,
    mem_moneyOutQualifying topIds tf, ?_, ?_, ?_⟩
  · intro hx
    obtain ⟨r, hr, hrx⟩ := aggMat_rows_subset _ _ _ _ _ hx
    exact ((mem_moneyInQualifying topIds tf r).1 hr).2.2.2.1 hrx
  · intro hx
    obtain ⟨r, hr, hrx⟩ := aggMat_rows_subset _ _ _ _ _ hx
    exact ((mem_moneyInQualifying topIds tf r).1 hr).2.2.2.2 hrx
  · intro r hr hu
    exact hu ▸ aggMat_mem_rows _ _ _ _ _ hr
  · intro hx
    obtain ⟨r, hr, hrx⟩ := aggMat_rows_subset _ _ _ _ _ hx
    exact ((mem_moneyOutQualifying topIds tf r).1 hr).2.2.2.1 hrx
  · intro hx
    obtain ⟨r, hr, hrx⟩ := aggMat_rows_subset _ _ _ _ _ hx
    exact ((mem_moneyOutQualifying topIds tf r).1 hr).2.2.2.2 hrx
  · intro r hr hu
    exact hu ▸ aggMat_mem_rows _ _ _ _ _ hr

/-- C10 witness: the `Unknown`-bucketed transfer `tEx1` qualifies and puts
an `Unknown` row into the money-in matrix. -/
theorem claim_C10_witness :
    tEx1 ∈ moneyInQualifying [1] [tEx1] ∧ tEx1.from_country = "Unknown"
    ∧ "Unknown" ∈ (money_in_matrix [1] [tEx1]).rows :=
  ⟨by decide, by decide, (claim_C10 [1] [tEx1]).2.2.2.1 tEx1 (by decide) (by decide)⟩

/-! ### Claim C6: column percentage normalisation -/

/-- C6: on a non-empty matrix with non-negative entries the percentage
matrix keeps the rows, columns and ordering; a column with positive sum is
scaled cell-by-cell to percentages and sums to exactly 100; a column with
zero sum becomes identically 0 (no NaN, no division error). -/
theorem claim_C6 (m : Mat) (hne : m.rows ≠ [])
    (_hnn : ∀ r ∈ m.rows, ∀ c ∈ m.cols, 0 ≤ m.entry r c) :
    (column_percentage_matrix m).rows = m.rows
    ∧ (column_percentage_matrix m).cols = m.cols
    ∧ ∀ c ∈ m.cols,
      (0 < colSum m c →
        (∀ r : String,
          (column_percentage_matrix m).entry r c = m.entry r c / colSum m c * 100)
        ∧ colSum (column_percentage_matrix m) c = 100)
      ∧ (colSum m c = 0 →
        ∀ r : String, (column_percentage_matrix m).entry r c = 0) := by
  by_cases hce : m.cols.isEmpty = true
  · have hid : column_percentage_matrix m = m := by
      unfold column_percentage_matrix
      rw [if_pos (by rw [hce]; simp)]
    refine ⟨by rw [hid], by rw [hid], ?_⟩
    intro c hc
    rw [List.isEmpty_iff] at hce
    rw [hce] at hc
    exact absurd hc (List.not_mem_nil c)
  · have hre : m.rows.isEmpty = false := by
      rw [List.isEmpty_eq_false]
      exact hne
    have hstep : column_percentage_matrix m =
        { rows := m.rows, cols := m.cols,
          entry := fun r c =>
            if 0 < colSum m c then m.entry r c / colSum m c * 100 else 0 } := by
      unfold column_percentage_matrix
      rw [if_neg (by rw [hre]; simpa using hce)]
    refine ⟨by rw [hstep], by rw [hstep], ?_⟩
    intro c _
    constructor
    · intro hpos
      constructor
      · intro r
        rw [hstep]
        show (if 0 < colSum m c then m.entry r c / colSum m c * 100 else 0)
          = m.entry r c / colSum m c * 100
        rw [if_pos hpos]
      · rw [colSum, hstep]
        show ((m.rows.map (fun r =>
          if 0 < colSum m c then m.entry r c / colSum m c * 100 else 0)).sum : ℚ) = 100
        have hmc : (m.rows.map (fun r =>
            if 0 < colSum m c then m.entry r c / colSum m c * 100 else 0))
            = m.rows.map (fun r => m.entry r c / colSum m c * 100) :=
          List.map_congr_left (fun r _ => by rw [if_pos hpos])
        rw [hmc, sum_map_div_mul m.rows (fun r => m.entry r c) (colSum m c)]
        rw [show (m.rows.map (fun r => m.entry r c)).sum = colSum m c from rfl]
        rw [div_self (ne_of_gt hpos), one_mul]
    · intro hzero r
      rw [hstep]
      show (if 0 < colSum m c then m.entry r c / colSum m c * 100 else 0) = 0
      rw [if_neg (by rw [hzero]; exact lt_irrefl 0)]

/-- C6 witness: the percentage normalisation at the one-cell matrix
`pctExample` (entry 2, column sum 2 > 0). -/
theorem claim_C6_witness :
    pctExample.rows ≠ []
    ∧ (∀ r ∈ pctExample.rows, ∀ c ∈ pctExample.cols, 0 ≤ pctExample.entry r c)
    ∧ ((column_percentage_matrix pctExample).rows = pctExample.rows
      ∧ (column_percentage_matrix pctExample).cols = pctExample.cols
      ∧ ∀ c ∈ pctExample.cols,
        (0 < colSum pctExample c →
          (∀ r : String, (column_percentage_matrix pctExample).entry r c
            = pctExample.entry r c / colSum pctExample c * 100)
          ∧ colSum (column_percentage_matrix pctExample) c = 100)
        ∧ (colSum pctExample c = 0 →
          ∀ r : String, (column_percentage_matrix pctExample).entry r c = 0)) :=
  ⟨by decide, by decide, claim_C6 pctExample (by decide) (by decide)⟩

/-! ### Claim C9: team and per-season statistics -/

/-- A `filterMap` produces exactly one output per input on which the
function is defined. -/
theorem length_filterMap_eq_length_filter {α β : Type} (f : α → Option β) (l : List α) :
    (l.filterMap f).length = (l.filter (fun a => (f a).isSome)).length := by
  induction l with
  | nil => rfl
  | cons a l ih => rcases hfa : f a with _ | b <;>
      simp [List.filterMap_cons, List.filter_cons, hfa, ih]

/-- Inputs on which the function is undefined are skipped: removing them
first does not change a `filterMap`. -/
theorem filterMap_filter_isSome {α β : Type} (f : α → Option β) (l : List α) :
    (l.filter (fun a => (f a).isSome)).filterMap f = l.filterMap f := by
  induction l with
  | nil => rfl
  | cons a l ih => rcases hfa : f a with _ | b <;>
      simp [List.filterMap_cons, List.filter_cons, hfa, ih]

/-- A per-season record exists exactly when the season label parses. -/
theorem seasonRecordOpt_isSome (c : ℤ) (games : List Game) (tf : List Transfer)
    (s : String) :
    (seasonRecordOpt c games tf s).isSome = (seasonYearOpt s).isSome := by
  rcases hgy : seasonYearOpt s with _ | gy
  · rw [seasonRecordOpt, hgy]
    rfl
  · rw [seasonRecordOpt, hgy]
    rfl

/-- C9 counterexample: an unparsable season label is skipped (`continue`),
so `calculate_per_season_statistics` does not produce one record per
requested season. -/
theorem claim_C9_counterexample :
    (calculate_per_season_statistics 0 [] [] ["garbage"]).length
      ≠ (["garbage"] : List String).length := by decide

/-- C9 (amended): `calculate_team_statistics` yields one record per club,
counting wins as strictly greater goals on the club's side over the
season-filtered games, `win_pct = round2(wins/played*100)` with 0 when no
game was played, and money spent/earned as the `fee_eur` sums where the club
is buyer (`to_club_id`) resp. seller (`from_club_id`) over the
season-filtered transfers.  `calculate_per_season_statistics`, on an
arbitrary requested list, produces exactly one record per season whose
label parses — the result equals the run on the parsable sublist, so
unparsable labels are skipped, never given a record — every parsable
requested season gets a record, and each record satisfies the same formulas
per season (zero-filled when nothing matches). -/
theorem claim_C9_amended (club_ids : List ℤ) (games : List Game) (tf : List Transfer)
    (sel : Option (List String)) (c : ℤ) (seasons : List String) :
    ((calculate_team_statistics club_ids games tf sel).length = club_ids.length
      ∧ ∀ st ∈ calculate_team_statistics club_ids games tf sel,
        st.club_id ∈ club_ids
        ∧ st.games_won = strictWinCount st.club_id (teamGamesFiltered games sel)
        ∧ st.games_played = gamesPlayedCount st.club_id (teamGamesFiltered games sel)
        ∧ (st.games_played = 0 → st.win_pct = 0)
        ∧ (st.games_played ≠ 0 →
            st.win_pct = round2 ((st.games_won : ℚ) / (st.games_played : ℚ) * 100))
        ∧ st.money_spent = feeSumTo st.club_id (teamTransfersFiltered tf sel)
        ∧ st.money_earned = feeSumFrom st.club_id (teamTransfersFiltered tf sel))
    ∧ ((calculate_per_season_statistics c games tf seasons).length
        = (seasons.filter (fun s => (seasonYearOpt s).isSome)).length
      ∧ calculate_per_season_statistics c games tf seasons
          = calculate_per_season_statistics c games tf
              (seasons.filter (fun s => (seasonYearOpt s).isSome))
      ∧ (∀ s ∈ seasons, (seasonYearOpt s).isSome = true →
          ∃ r ∈ calculate_per_season_statistics c games tf seasons, r.season = s)
      ∧ ∀ r ∈ calculate_per_season_statistics c games tf seasons,
        r.season ∈ seasons
        ∧ (∃ gy, seasonYearOpt r.season = Option.some gy
            ∧ r.games_won = strictWinCount c (games.filter (fun g => g.season == gy))
            ∧ r.games_played = gamesPlayedCount c (games.filter (fun g => g.season == gy)))
        ∧ (r.games_played = 0 → r.win_pct = 0)
        ∧ (r.games_played ≠ 0 →
            r.win_pct = round2 ((r.games_won : ℚ) / (r.games_played : ℚ) * 100))
        ∧ r.money_spent = feeSumTo c (tf.filter (fun t => t.transfer_season == r.season))
        ∧ r.money_earned
            = feeSumFrom c (tf.filter (fun t => t.transfer_season == r.season))) := by
  have hfcongr : seasons.filter (fun s => (seasonYearOpt s).isSome)
      = seasons.filter (fun s => (seasonRecordOpt c games tf s).isSome) :=
    List.filter_congr fun s _ => (seasonRecordOpt_isSome c games tf s).symm
  constructor
  · constructor
    · exact List.length_map club_ids _
    · intro st hst
      rw [calculate_team_statistics, List.mem_map] at hst
      obtain ⟨cid, hcid, rfl⟩ := hst
      refine ⟨hcid, rfl, rfl, ?_, ?_, rfl, rfl⟩
      · intro h0
        have hz : gamesPlayedCount cid (teamGamesFiltered games sel) = 0 := h0
        show round2 (if 0 < gamesPlayedCount cid (teamGamesFiltered games sel) then
          (strictWinCount cid (teamGamesFiltered games sel) : ℚ)
            / (gamesPlayedCount cid (teamGamesFiltered games sel) : ℚ) * 100 else 0) = 0
        rw [hz, if_neg (lt_irrefl 0), round2_zero]
      · intro h0
        have hz : gamesPlayedCount cid (teamGamesFiltered games sel) ≠ 0 := h0
        show round2 (if 0 < gamesPlayedCount cid (teamGamesFiltered games sel) then
          (strictWinCount cid (teamGamesFiltered games sel) : ℚ)
            / (gamesPlayedCount cid (teamGamesFiltered games sel) : ℚ) * 100 else 0)
          = round2 ((strictWinCount cid (teamGamesFiltered games sel) : ℚ)
            / (gamesPlayedCount cid (teamGamesFiltered games sel) : ℚ) * 100)
        rw [if_pos (Nat.pos_of_ne_zero hz)]
  · refine ⟨?_, ?_, ?_, ?_⟩
    · rw [calculate_per_season_statistics, length_filterMap_eq_length_filter, hfcongr]
    · rw [calculate_per_season_statistics, calculate_per_season_statistics, hfcongr,
        filterMap_filter_isSome]
    · intro s hs hsome
      rw [Option.isSome_iff_exists] at hsome
      obtain ⟨gy, hgy⟩ := hsome
      rcases hr : seasonRecordOpt c games tf s with _ | r
      · rw [seasonRecordOpt, hgy] at hr
        exact absurd hr (by simp)
      · refine ⟨r, List.mem_filterMap.2 ⟨s, hs, hr⟩, ?_⟩
        rw [seasonRecordOpt, hgy, Option.some_inj] at hr
        rw [← hr]
    · intro r hr
      rw [calculate_per_season_statistics, List.mem_filterMap] at hr
      obtain ⟨s, hs, hrec⟩ := hr
      rw [seasonRecordOpt] at hrec
      rcases hgy : seasonYearOpt s with _ | gy
      · rw [hgy] at hrec
        exact absurd hrec (by simp)
      · rw [hgy, Option.some_inj] at hrec
        subst hrec
        refine ⟨hs, ⟨gy, hgy, rfl, rfl⟩, ?_, ?_, rfl, rfl⟩
        · intro h0
          have hz : gamesPlayedCount c (games.filter (fun g => g.season == gy)) = 0 := h0
          show round2 (if 0 < gamesPlayedCount c (games.filter (fun g => g.season == gy)) then
            (strictWinCount c (games.filter (fun g => g.season == gy)) : ℚ)
              / (gamesPlayedCount c (games.filter (fun g => g.season == gy)) : ℚ) * 100
            else 0) = 0
          rw [hz, if_neg (lt_irrefl 0), round2_zero]
        · intro h0
          have hz : gamesPlayedCount c (games.filter (fun g => g.season == gy)) ≠ 0 := h0
          show round2 (if 0 < gamesPlayedCount c (games.filter (fun g => g.season == gy)) then
            (strictWinCount c (games.filter (fun g => g.season == gy)) : ℚ)
              / (gamesPlayedCount c (games.filter (fun g => g.season == gy)) : ℚ) * 100
            else 0)
            = round2 ((strictWinCount c (games.filter (fun g => g.season == gy)) : ℚ)
              / (gamesPlayedCount c (games.filter (fun g => g.season == gy)) : ℚ) * 100)
          rw [if_pos (Nat.pos_of_ne_zero hz)]

/-- C9 witness: on the mixed list `["20/21", "garbage"]` the parsable season
`20/21` gets its record. -/
theorem claim_C9_witness :
    ("20/21" ∈ (["20/21", "garbage"] : List String)
      ∧ (seasonYearOpt "20/21").isSome = true)
    ∧ ∃ r ∈ calculate_per_season_statistics 1 [gEx1] [tEx1] ["20/21", "garbage"],
        r.season = "20/21" :=
  ⟨⟨by decide, by decide⟩,
    (claim_C9_amended [1] [gEx1] [tEx1] Option.none 1 ["20/21", "garbage"]).2.2.2.1 "20/21"
      (by decide) (by decide)⟩
